import Mathlib

/-!
Verification of the ghafpkgs USB-passthrough core: the framed JSON codec
(`upm/channel/json_transport.py`), the typed protocol messages
(`vsock_bridge/protocols/dpm.py`), the reconnecting client send loop
(`vsock_bridge/vsock.py`), the host registry service
(`upm/host/service.py`) and the guest mirror registry
(`upm/guest/device_registry.py`), shallowly embedded in Lean.

Machine integers do not occur in the embedded code; strings are Lean
strings (Unicode scalar values, as in Python; note Python additionally
permits lone surrogates in `str`, which no protocol value contains).
-/

namespace Ghaf

/-! ## JSON values

Model of the Python values that flow through `json.dumps` / `json.loads`
in this codebase: `None`, `bool`, `int`, `str`, `list`, `dict`.
`dict` is modelled as an insertion-ordered association list, matching
Python 3.7+ dict semantics.  `float` values never occur in any protocol
message and are outside the model. -/

inductive Json where
  | null : Json
  | bool (b : Bool) : Json
  | num (n : Int) : Json
  | str (s : String) : Json
  | arr (xs : List Json) : Json
  | obj (kvs : List (String × Json)) : Json
deriving Inhabited, Repr

/-! ## Serialization

Embeds `json.dumps(obj, separators=(",", ":"))` with the default
`ensure_ascii=True`: compact separators, every character outside
`0x20 ..= 0x7e` escaped, using lowercase 4-digit hex and UTF-16
surrogate pairs for characters above `0xffff`.  The output is pure
ASCII, so UTF-8 encoding to bytes is the identity on it and the byte
stream is modelled as `List Char`. -/

/-- Lowercase hex digit characters, as emitted by CPython's `'%04x'`. -/
def hexDigit (d : Nat) : Char :=
  Nat.digitChar d

/-- Four lowercase hex digits of `n < 0x10000`, most significant first. -/
def hex4 (n : Nat) : List Char :=
  [hexDigit (n / 4096 % 16), hexDigit (n / 256 % 16),
   hexDigit (n / 16 % 16), hexDigit (n % 16)]

/-- A `\uXXXX` escape sequence. -/
def uEscape (n : Nat) : List Char :=
  '\\' :: 'u' :: hex4 n

/-- CPython `py_encode_basestring_ascii` escaping of one character:
short escapes for the JSON control shorthands, literal ASCII for
`0x20 ..= 0x7e`, `\u` escapes otherwise, with a surrogate pair for
characters above `0xffff`. -/
def escChar (c : Char) : List Char :=
  if c = '"' then ['\\', '"']
  else if c = '\\' then ['\\', '\\']
  else if c.toNat = 8 then ['\\', 'b']
  else if c.toNat = 9 then ['\\', 't']
  else if c.toNat = 10 then ['\\', 'n']
  else if c.toNat = 12 then ['\\', 'f']
  else if c.toNat = 13 then ['\\', 'r']
  else if c.toNat < 0x20 then uEscape c.toNat
  else if c.toNat ≤ 0x7e then [c]
  else if c.toNat ≤ 0xffff then uEscape c.toNat
  else
    let m := c.toNat - 0x10000
    uEscape (0xd800 + m / 0x400) ++ uEscape (0xdc00 + m % 0x400)

/-- Escaped body of a string literal. -/
def escList : List Char → List Char
  | [] => []
  | c :: cs => escChar c ++ escList cs

/-- A serialized JSON string literal, quotes included. -/
def serStr (s : String) : List Char :=
  '"' :: (escList s.data ++ ['"'])

/-- Decimal digits accumulator; `fuel` bounds the digit count so the
recursion is structural.  `natChars` always supplies enough fuel. -/
def natCharsAux : Nat → Nat → List Char → List Char
  | 0, _, acc => acc
  | fuel + 1, n, acc =>
    if n < 10 then Nat.digitChar n :: acc
    else natCharsAux fuel (n / 10) (Nat.digitChar (n % 10) :: acc)

/-- Decimal digits of a natural number (no sign, no leading zeros). -/
def natChars (n : Nat) : List Char :=
  natCharsAux (n + 1) n []

/-- Decimal representation of an integer, as printed by Python `repr`. -/
def intChars (i : Int) : List Char :=
  if i < 0 then '-' :: natChars i.natAbs else natChars i.natAbs

/-- The characters `json.dumps` writes for `None`. -/
def kwNull : List Char := ['n', 'u', 'l', 'l']

/-- The characters `json.dumps` writes for `True`. -/
def kwTrue : List Char := ['t', 'r', 'u', 'e']

/-- The characters `json.dumps` writes for `False`. -/
def kwFalse : List Char := ['f', 'a', 'l', 's', 'e']

mutual

/-- Compact serialization of a JSON value: the exact character sequence
produced by `json.dumps(obj, separators=(",", ":"))`. -/
def serJson : Json → List Char
  | .null => kwNull
  | .bool true => kwTrue
  | .bool false => kwFalse
  | .num i => intChars i
  | .str s => serStr s
  | .arr xs => '[' :: (serItems xs ++ [']'])
  | .obj kvs => '{' :: (serFields kvs ++ ['}'])

/-- Comma-separated serialized array elements. -/
def serItems : List Json → List Char
  | [] => []
  | [x] => serJson x
  | x :: y :: t => serJson x ++ ',' :: serItems (y :: t)

/-- Comma-separated serialized object entries, each `"key":value`. -/
def serFields : List (String × Json) → List Char
  | [] => []
  | [(k, v)] => serStr k ++ ':' :: serJson v
  | (k, v) :: e :: t => (serStr k ++ ':' :: serJson v) ++ ',' :: serFields (e :: t)

end

/-! ## Parsing

Embeds `json.loads` (CPython's strict scanner) on the value space above:
whitespace per the JSON grammar, strings with escape sequences and
UTF-16 surrogate-pair recombination, integers, arrays and objects.
Model boundaries, each noted inline: float literals (fractions,
exponents) and lone surrogates (representable in a Python `str` but not
as Unicode scalar values) make the parser fail instead. -/

/-- JSON inter-token whitespace accepted by the scanner. -/
def isJsonWs (c : Char) : Bool :=
  c = ' ' || c = '\t' || c = '\n' || c = '\r'

/-- Skip inter-token whitespace. -/
def skipWs (s : List Char) : List Char :=
  s.dropWhile isJsonWs

/-- Value of one hex digit character, either case. -/
def hexVal (c : Char) : Option Nat :=
  if '0' ≤ c ∧ c ≤ '9' then some (c.toNat - 48)
  else if 'a' ≤ c ∧ c ≤ 'f' then some (c.toNat - 87)
  else if 'A' ≤ c ∧ c ≤ 'F' then some (c.toNat - 55)
  else none

/-- Value of a four-hex-digit group. -/
def hex4Val (a b c d : Char) : Option Nat := do
  let x ← hexVal a
  let y ← hexVal b
  let z ← hexVal c
  let w ← hexVal d
  pure (((x * 16 + y) * 16 + z) * 16 + w)

/-- Prepend a decoded character to a string-body parse result. -/
def consChar (c : Char) (p : Option (List Char × List Char)) :
    Option (List Char × List Char) :=
  p.map fun q => (c :: q.1, q.2)

/-- Decode a `\uXXXX` escape group given the input after the `u`:
either a single scalar value, or a high surrogate that must be followed
by a low-surrogate escape, recombined into one character (a lone
surrogate is representable in a Python `str` but is not a Unicode
scalar value and lies outside the model).  Returns the decoded
character and the remaining input. -/
def parseUEscape : List Char → Option (Char × List Char)
  | a :: b :: c2 :: d :: r2 =>
    match hex4Val a b c2 d with
    | none => none
    | some n =>
      if n < 0xd800 ∨ 0xdfff < n then some (Char.ofNat n, r2)
      else if n ≤ 0xdbff then
        match r2 with
        | e1 :: e2 :: e3 :: e4 :: e5 :: e6 :: r3 =>
          if e1 = '\\' ∧ e2 = 'u' then
            match hex4Val e3 e4 e5 e6 with
            | none => none
            | some m =>
              if 0xdc00 ≤ m ∧ m ≤ 0xdfff then
                some (Char.ofNat (0x10000 + (n - 0xd800) * 0x400 + (m - 0xdc00)), r3)
              else none
          else none
        | _ => none
      else none
  | _ => none

/-- Decode one escape sequence given the input after the backslash:
returns the decoded character and the remaining input. -/
def parseEscape : List Char → Option (Char × List Char)
  | [] => none
  | e :: r1 =>
    if e = '"' then some ('"', r1)
    else if e = '\\' then some ('\\', r1)
    else if e = '/' then some ('/', r1)
    else if e = 'b' then some (Char.ofNat 8, r1)
    else if e = 'f' then some (Char.ofNat 12, r1)
    else if e = 'n' then some ('\n', r1)
    else if e = 'r' then some ('\r', r1)
    else if e = 't' then some ('\t', r1)
    else if e = 'u' then parseUEscape r1
    else none

/-- Parse the body of a string literal after the opening quote, up to
and including the closing quote; returns the decoded characters and the
remaining input.  Unescaped control characters are rejected (strict
mode).  Every step consumes at least one input character, so `fuel`
equal to the input length plus one never runs out; callers supply it. -/
def parseStrBody : Nat → List Char → Option (List Char × List Char)
  | 0, _ => none
  | _ + 1, [] => none
  | fuel + 1, c :: r =>
    if c = '"' then some ([], r)
    else if c = '\\' then
      match parseEscape r with
      | none => none
      | some (ch, r2) => consChar ch (parseStrBody fuel r2)
    else if c.toNat < 0x20 then none
    else consChar c (parseStrBody fuel r)

/-- Consume a run of decimal digits, folding them onto `acc`. -/
def parseDigits : List Char → Nat → Nat × List Char
  | [], acc => (acc, [])
  | c :: s, acc =>
    if c.isDigit then parseDigits s (acc * 10 + (c.toNat - 48)) else (acc, c :: s)

/-- Parse an unsigned integer literal: at least one digit, no redundant
leading zero; a fraction or exponent continuation means a float
literal, which is outside the model, so the parse fails. -/
def parseNumCore : List Char → Option (Nat × List Char)
  | [] => none
  | c :: s1 =>
    if c.isDigit then
      if c = '0' && (match s1 with | d :: _ => d.isDigit | [] => false) then none
      else
        let p := parseDigits s1 (c.toNat - 48)
        match p.2 with
        | [] => some p
        | c2 :: _ => if c2 = '.' ∨ c2 = 'e' ∨ c2 = 'E' then none else some p
    else none

/-- Parse a number token, optional leading minus sign. -/
def parseNum (s : List Char) : Option (Json × List Char) :=
  match s with
  | [] => none
  | c :: s1 =>
    if c = '-' then (parseNumCore s1).map fun p => (Json.num (-(p.1 : Int)), p.2)
    else (parseNumCore (c :: s1)).map fun p => (Json.num (p.1 : Int), p.2)

mutual

/-- Parse one JSON value.  `fuel` bounds the recursion depth and is
decremented on every nested call; `parseJson` supplies enough fuel for
any input (one unit per input character suffices). -/
def parseVal : Nat → List Char → Option (Json × List Char)
  | 0, _ => none
  | _ + 1, [] => none
  | fuel + 1, c :: s =>
    if c = 'n' then
      match s with
      | 'u' :: 'l' :: 'l' :: r => some (.null, r)
      | _ => none
    else if c = 't' then
      match s with
      | 'r' :: 'u' :: 'e' :: r => some (.bool true, r)
      | _ => none
    else if c = 'f' then
      match s with
      | 'a' :: 'l' :: 's' :: 'e' :: r => some (.bool false, r)
      | _ => none
    else if c = '"' then
      (parseStrBody (s.length + 1) s).map fun p => (.str (String.mk p.1), p.2)
    else if c = '[' then
      match skipWs s with
      | [] => none
      | c1 :: r1 =>
        if c1 = ']' then some (.arr [], r1)
        else (parseElems fuel (c1 :: r1)).map fun p => (.arr p.1, p.2)
    else if c = '{' then
      match skipWs s with
      | [] => none
      | c1 :: r1 =>
        if c1 = '}' then some (.obj [], r1)
        else (parseMembers fuel (c1 :: r1)).map fun p => (.obj p.1, p.2)
    else if c = '-' ∨ c.isDigit then parseNum (c :: s)
    else none

/-- Parse one or more comma-separated array elements and the closing
bracket. -/
def parseElems : Nat → List Char → Option (List Json × List Char)
  | 0, _ => none
  | fuel + 1, s => do
    let (v, s1) ← parseVal fuel s
    match skipWs s1 with
    | [] => none
    | c2 :: s2 =>
      if c2 = ',' then do
        let (vs, s3) ← parseElems fuel (skipWs s2)
        pure (v :: vs, s3)
      else if c2 = ']' then pure ([v], s2)
      else none

/-- Parse one or more comma-separated object members (each a quoted key,
a colon and a value) and the closing brace. -/
def parseMembers : Nat → List Char → Option (List (String × Json) × List Char)
  | 0, _ => none
  | fuel + 1, s =>
    match s with
    | [] => none
    | c0 :: s0 =>
      if c0 = '"' then do
        let (k, s1) ← parseStrBody (s0.length + 1) s0
        match skipWs s1 with
        | [] => none
        | c2 :: s2 =>
          if c2 = ':' then do
            let (v, s3) ← parseVal fuel (skipWs s2)
            match skipWs s3 with
            | [] => none
            | c4 :: s4 =>
              if c4 = ',' then do
                let (ms, s5) ← parseMembers fuel (skipWs s4)
                pure ((String.mk k, v) :: ms, s5)
              else if c4 = '}' then pure ([(String.mk k, v)], s4)
              else none
          else none
      else none

end

/-- Embeds `json.loads` on a whole document: parse one value surrounded
by optional whitespace; trailing garbage is an error. -/
def parseJson (s : List Char) : Option Json :=
  match parseVal (s.length + 1) (skipWs s) with
  | some (v, r) => if skipWs r = [] then some v else none
  | none => none

/-! ## Round-trip: strings

`parseStrBody` inverts `escList`, one escape group at a time. -/

theorem char_toNat_valid (c : Char) :
    c.toNat < 0xd800 ∨ (0xdfff < c.toNat ∧ c.toNat < 0x110000) := by
  rcases c.valid with h | ⟨h1, h2⟩
  · exact Or.inl h
  · exact Or.inr ⟨h1, h2⟩

theorem char_ofNat_eq (c : Char) (n : Nat) (h : c.toNat = n) : Char.ofNat n = c := by
  subst h
  exact Char.ofNat_toNat c

theorem hexVal_digitChar : ∀ d, d < 16 → hexVal (Nat.digitChar d) = some d := by decide

theorem hex4Val_hex4 (n : Nat) (hn : n < 0x10000) :
    hex4Val (hexDigit (n / 4096 % 16)) (hexDigit (n / 256 % 16))
      (hexDigit (n / 16 % 16)) (hexDigit (n % 16)) = some n := by
  have h1 := hexVal_digitChar (n / 4096 % 16) (Nat.mod_lt _ (by norm_num))
  have h2 := hexVal_digitChar (n / 256 % 16) (Nat.mod_lt _ (by norm_num))
  have h3 := hexVal_digitChar (n / 16 % 16) (Nat.mod_lt _ (by norm_num))
  have h4 := hexVal_digitChar (n % 16) (Nat.mod_lt _ (by norm_num))
  simp only [hexDigit] at *
  simp [hex4Val, h1, h2, h3, h4]
  omega

theorem parseUEscape_single (n : Nat) (T : List Char)
    (hlo : n < 0xd800 ∨ 0xdfff < n) (hhi : n < 0x10000) :
    parseUEscape (hex4 n ++ T) = some (Char.ofNat n, T) := by
  simp [hex4, parseUEscape, hex4Val_hex4 n hhi, hlo]

theorem parseUEscape_pair (n m2 : Nat) (T : List Char)
    (ha : 0xd800 ≤ n) (hb : n ≤ 0xdbff) (hc : 0xdc00 ≤ m2) (hd : m2 ≤ 0xdfff) :
    parseUEscape (hex4 n ++ ('\\' :: 'u' :: (hex4 m2 ++ T))) =
      some (Char.ofNat (0x10000 + (n - 0xd800) * 0x400 + (m2 - 0xdc00)), T) := by
  simp [hex4, parseUEscape, hex4Val_hex4 n (by omega), hex4Val_hex4 m2 (by omega),
    show ¬(n < 0xd800) from by omega, show ¬(0xdfff < n) from by omega,
    show n ≤ 0xdbff from hb, hc, hd]

theorem parseStrBody_backslash (r : List Char) (fuel : Nat) :
    parseStrBody (fuel + 1) ('\\' :: r) =
      match parseEscape r with
      | none => none
      | some (ch, r2) => consChar ch (parseStrBody fuel r2) := by
  simp [parseStrBody]

theorem parseEscape_u (r : List Char) : parseEscape ('u' :: r) = parseUEscape r := by
  simp [parseEscape]

theorem parseStrBody_esc (c : Char) (T : List Char) (fuel : Nat) :
    parseStrBody (fuel + 1) (escChar c ++ T) = consChar c (parseStrBody fuel T) := by
  by_cases h1 : c = '"'
  · subst h1
    simp [escChar, parseStrBody, parseEscape]
  by_cases h2 : c = '\\'
  · subst h2
    simp [escChar, parseStrBody, parseEscape]
  by_cases h3 : c.toNat = 8
  · simp [escChar, h1, h2, h3, parseStrBody, parseEscape]
    rw [char_ofNat_eq c 8 h3]
  by_cases h4 : c.toNat = 9
  · have : ('\t' : Char) = c := by
      rw [show ('\t' : Char) = Char.ofNat 9 from by decide]
      exact char_ofNat_eq c 9 h4
    simp [escChar, h1, h2, h3, h4, parseStrBody, parseEscape]
    rw [this]
  by_cases h5 : c.toNat = 10
  · have : ('\n' : Char) = c := by
      rw [show ('\n' : Char) = Char.ofNat 10 from by decide]
      exact char_ofNat_eq c 10 h5
    simp [escChar, h1, h2, h3, h4, h5, parseStrBody, parseEscape]
    rw [this]
  by_cases h6 : c.toNat = 12
  · simp [escChar, h1, h2, h3, h4, h5, h6, parseStrBody, parseEscape]
    rw [char_ofNat_eq c 12 h6]
  by_cases h7 : c.toNat = 13
  · have : ('\r' : Char) = c := by
      rw [show ('\r' : Char) = Char.ofNat 13 from by decide]
      exact char_ofNat_eq c 13 h7
    simp [escChar, h1, h2, h3, h4, h5, h6, h7, parseStrBody, parseEscape]
    rw [this]
  by_cases h8 : c.toNat < 0x20
  · have hu := parseUEscape_single c.toNat T (Or.inl (by omega)) (by omega)
    rw [char_ofNat_eq c c.toNat rfl] at hu
    simp [escChar, h1, h2, h3, h4, h5, h6, h7, h8, uEscape, parseStrBody,
      parseEscape, hu]
  by_cases h9 : c.toNat ≤ 0x7e
  · have hq : ¬c.toNat < 0x20 := h8
    simp [escChar, h1, h2, h3, h4, h5, h6, h7, h8, h9, parseStrBody, hq]
  by_cases h10 : c.toNat ≤ 0xffff
  · have hlo : c.toNat < 0xd800 ∨ 0xdfff < c.toNat := by
      rcases char_toNat_valid c with h | ⟨ha, _⟩
      · exact Or.inl h
      · exact Or.inr ha
    have hu := parseUEscape_single c.toNat T hlo (by omega)
    rw [char_ofNat_eq c c.toNat rfl] at hu
    simp [escChar, h1, h2, h3, h4, h5, h6, h7, h8, h9, h10, uEscape, parseStrBody,
      parseEscape, hu]
  · -- astral character: surrogate-pair escape
    have hv : c.toNat < 0x110000 := by
      rcases char_toNat_valid c with h | ⟨_, hb⟩
      · omega
      · exact hb
    have h400 : c.toNat - 0x10000 < 0x100000 := by omega
    have hmod : (c.toNat - 0x10000) % 0x400 < 0x400 :=
      Nat.mod_lt _ (by norm_num)
    have hpair := parseUEscape_pair (0xd800 + (c.toNat - 0x10000) / 0x400)
      (0xdc00 + (c.toNat - 0x10000) % 0x400) T (by omega) (by omega) (by omega)
      (by omega)
    rw [show 0x10000 + (0xd800 + (c.toNat - 0x10000) / 0x400 - 0xd800) * 0x400 +
          (0xdc00 + (c.toNat - 0x10000) % 0x400 - 0xdc00) = c.toNat from by
        have := Nat.div_add_mod (c.toNat - 0x10000) 0x400
        omega,
      char_ofNat_eq c c.toNat rfl] at hpair
    have hesc : escChar c =
        uEscape (0xd800 + (c.toNat - 0x10000) / 0x400) ++
          uEscape (0xdc00 + (c.toNat - 0x10000) % 0x400) := by
      simp only [escChar, if_neg h1, if_neg h2, if_neg h3, if_neg h4, if_neg h5,
        if_neg h6, if_neg h7, if_neg h8, if_neg h9, if_neg h10]
    rw [hesc]
    simp only [uEscape, List.cons_append, List.append_assoc, List.nil_append]
    rw [parseStrBody_backslash, parseEscape_u, hpair]

theorem parseStrBody_escList (l : List Char) : ∀ (T : List Char) (fuel : Nat),
    l.length < fuel →
    parseStrBody fuel (escList l ++ '"' :: T) = some (l, T) := by
  induction l with
  | nil =>
    intro T fuel hf
    obtain ⟨f, rfl⟩ : ∃ f, fuel = f + 1 := ⟨fuel - 1, by omega⟩
    simp [escList, parseStrBody]
  | cons c l ih =>
    intro T fuel hf
    obtain ⟨f, rfl⟩ : ∃ f, fuel = f + 1 := ⟨fuel - 1, by omega⟩
    rw [escList, List.append_assoc, parseStrBody_esc,
      ih T f (by simpa using Nat.lt_of_succ_lt_succ hf)]
    simp [consChar]

/-! ## Round-trip: numbers -/

/-- A list on which a number token cannot continue: empty, or starting
with a character that is not a digit, a fraction point or an exponent
marker. -/
def numStop : List Char → Bool
  | [] => true
  | c :: _ => !(c.isDigit || c = '.' || c = 'e' || c = 'E')

theorem natCharsAux_eq (n : Nat) : ∀ (fuel : Nat) (acc : List Char), n < fuel →
    natCharsAux fuel n acc = natChars n ++ acc := by
  induction n using Nat.strong_induction_on with
  | _ n ih =>
    intro fuel acc hf
    obtain ⟨f, rfl⟩ : ∃ f, fuel = f + 1 := ⟨fuel - 1, by omega⟩
    by_cases h : n < 10
    · simp [natCharsAux, h, natChars]
    · have hd : n / 10 < n := Nat.div_lt_self (by omega) (by omega)
      simp only [natCharsAux, if_neg h]
      rw [ih (n / 10) hd f _ (by omega)]
      conv_rhs =>
        rw [natChars]
        simp only [natCharsAux, if_neg h]
        rw [ih (n / 10) hd n _ (by omega)]
      simp

theorem natChars_lt10 (n : Nat) (h : n < 10) : natChars n = [Nat.digitChar n] := by
  simp [natChars, natCharsAux, h]

theorem natChars_ge10 (n : Nat) (h : 10 ≤ n) :
    natChars n = natChars (n / 10) ++ [Nat.digitChar (n % 10)] := by
  rw [natChars]
  simp only [natCharsAux, if_neg (show ¬n < 10 from by omega)]
  exact natCharsAux_eq (n / 10) n _ (Nat.div_lt_self (by omega) (by omega))

theorem digitChar_isDigit : ∀ d, d < 10 → (Nat.digitChar d).isDigit = true := by decide

theorem digitChar_val : ∀ d, d < 10 → (Nat.digitChar d).toNat - 48 = d := by decide

theorem digitChar_ne_zero : ∀ d, 1 ≤ d → d < 10 → Nat.digitChar d ≠ '0' := by decide

theorem natChars_digits (n : Nat) : ∀ c ∈ natChars n, c.isDigit = true := by
  induction n using Nat.strong_induction_on with
  | _ n ih =>
    by_cases h : n < 10
    · rw [natChars_lt10 n h]
      simp [digitChar_isDigit n h]
    · rw [natChars_ge10 n (by omega)]
      intro c hc
      rcases List.mem_append.mp hc with h1 | h2
      · exact ih (n / 10) (Nat.div_lt_self (by omega) (by omega)) c h1
      · have : c = Nat.digitChar (n % 10) := by simpa using h2
        subst this
        exact digitChar_isDigit _ (Nat.mod_lt _ (by omega))

theorem natChars_ne_nil (n : Nat) : natChars n ≠ [] := by
  by_cases h : n < 10
  · rw [natChars_lt10 n h]; simp
  · rw [natChars_ge10 n (by omega)]; simp

theorem natChars_head_ne_zero (n : Nat) : 1 ≤ n →
    ∀ c t, natChars n = c :: t → c ≠ '0' := by
  induction n using Nat.strong_induction_on with
  | _ n ih =>
    intro hn c t hct
    by_cases h : n < 10
    · rw [natChars_lt10 n h] at hct
      obtain ⟨hh, -⟩ : Nat.digitChar n = c ∧ t = [] := by
        simpa using hct
      rw [← hh]
      exact digitChar_ne_zero n hn h
    · rw [natChars_ge10 n (by omega)] at hct
      obtain ⟨c', t', hsplit⟩ : ∃ c' t', natChars (n / 10) = c' :: t' := by
        cases hh : natChars (n / 10) with
        | nil => exact absurd hh (natChars_ne_nil _)
        | cons a b => exact ⟨a, b, rfl⟩
      rw [hsplit] at hct
      simp only [List.cons_append, List.cons.injEq] at hct
      obtain ⟨rfl, -⟩ := hct
      exact ih (n / 10) (Nat.div_lt_self (by omega) (by omega))
        (by omega)
        c' t' hsplit

/-- Value accumulated by reading a digit string left to right. -/
def digitsVal (ds : List Char) (acc : Nat) : Nat :=
  ds.foldl (fun a c => a * 10 + (c.toNat - 48)) acc

theorem parseDigits_spec (ds : List Char) : ∀ (T : List Char) (acc : Nat),
    (∀ c ∈ ds, c.isDigit = true) →
    (∀ c t, T = c :: t → c.isDigit = false) →
    parseDigits (ds ++ T) acc = (digitsVal ds acc, T) := by
  induction ds with
  | nil =>
    intro T acc _ hT
    cases T with
    | nil => simp [parseDigits, digitsVal]
    | cons c t => simp [parseDigits, hT c t rfl, digitsVal]
  | cons c ds ih =>
    intro T acc hds hT
    have hc : c.isDigit = true := hds c (by simp)
    simp only [List.cons_append, parseDigits, hc, if_pos, List.append_eq]
    rw [ih T _ (fun x hx => hds x (by simp [hx])) hT]
    simp [digitsVal]

theorem digitsVal_natChars (n : Nat) : ∀ acc,
    digitsVal (natChars n) acc = acc * 10 ^ (natChars n).length + n := by
  induction n using Nat.strong_induction_on with
  | _ n ih =>
    intro acc
    by_cases h : n < 10
    · rw [natChars_lt10 n h]
      simp [digitsVal, digitChar_val n h]
    · rw [natChars_ge10 n (by omega)]
      rw [show natChars (n / 10) ++ [Nat.digitChar (n % 10)] =
        natChars (n / 10) ++ [Nat.digitChar (n % 10)] from rfl]
      simp only [digitsVal, List.foldl_append, List.foldl_cons, List.foldl_nil]
      have hrec := ih (n / 10) (Nat.div_lt_self (by omega) (by omega)) acc
      simp only [digitsVal] at hrec
      rw [hrec, digitChar_val _ (Nat.mod_lt _ (by omega))]
      have hmod := Nat.div_add_mod n 10
      simp [List.length_append, pow_succ]
      ring_nf
      omega

theorem parseNumCore_natChars (n : Nat) (T : List Char) (hT : numStop T = true) :
    parseNumCore (natChars n ++ T) = some (n, T) := by
  have hTd : ∀ c t, T = c :: t → c.isDigit = false := by
    intro c t hct
    subst hct
    simp [numStop] at hT
    tauto
  obtain ⟨c, t, hct⟩ : ∃ c t, natChars n = c :: t := by
    cases hh : natChars n with
    | nil => exact absurd hh (natChars_ne_nil _)
    | cons a b => exact ⟨a, b, rfl⟩
  have hcd : c.isDigit = true := natChars_digits n c (by rw [hct]; simp)
  have hzero : (c = '0' && (match t ++ T with
      | d :: _ => d.isDigit
      | [] => false)) = false := by
    by_cases h : n < 10
    · rw [natChars_lt10 n h] at hct
      obtain ⟨hh, rfl⟩ : Nat.digitChar n = c ∧ t = [] := by simpa using hct
      cases T with
      | nil => simp
      | cons d t2 => simp [hTd d t2 rfl]
    · have := natChars_head_ne_zero n (by omega) c t hct
      simp [this]
  have hdigits : ∀ x ∈ t, x.isDigit = true := by
    intro x hx
    exact natChars_digits n x (by rw [hct]; simp [hx])
  rw [hct, List.cons_append]
  simp only [parseNumCore, hcd, if_pos, hzero, Bool.false_eq_true, if_neg,
    not_false_eq_true]
  rw [parseDigits_spec t T (c.toNat - 48) hdigits hTd]
  have hval : digitsVal t (c.toNat - 48) = n := by
    have h0 := digitsVal_natChars n 0
    rw [hct] at h0
    simpa [digitsVal] using h0
  cases T with
  | nil => simp [hval]
  | cons d t2 =>
    have hd := hTd d t2 rfl
    have hstop : ¬(d = '.' ∨ d = 'e' ∨ d = 'E') := by
      simp [numStop] at hT
      tauto
    simp [hval, hstop]

theorem parseNum_intChars (i : Int) (T : List Char) (hT : numStop T = true) :
    parseNum (intChars i ++ T) = some (Json.num i, T) := by
  by_cases h : i < 0
  · rw [intChars, if_pos h, List.cons_append]
    simp only [parseNum, if_pos rfl]
    rw [parseNumCore_natChars i.natAbs T hT]
    have : (i.natAbs : Int) = -i := by omega
    simp [this]
  · rw [intChars, if_neg h]
    obtain ⟨c, t, hct⟩ : ∃ c t, natChars i.natAbs = c :: t := by
      cases hh : natChars i.natAbs with
      | nil => exact absurd hh (natChars_ne_nil _)
      | cons a b => exact ⟨a, b, rfl⟩
    have hcd : c.isDigit = true := natChars_digits _ c (by rw [hct]; simp)
    have hcm : ¬c = '-' := by
      intro hcm
      rw [hcm] at hcd
      simp at hcd
    rw [hct, List.cons_append]
    simp only [parseNum, if_neg hcm]
    rw [← List.cons_append, ← hct, parseNumCore_natChars i.natAbs T hT]
    have : (i.natAbs : Int) = i := by omega
    simp [this]

/-! ## Round-trip: values -/

mutual

/-- Parser fuel sufficient for the serialization of a value. -/
def jfuel : Json → Nat
  | .null => 1
  | .bool _ => 1
  | .num _ => 1
  | .str _ => 1
  | .arr xs => 1 + jfuelElems xs
  | .obj kvs => 1 + jfuelMems kvs

/-- Fuel for a nonempty element list. -/
def jfuelElems : List Json → Nat
  | [] => 0
  | x :: t => 1 + jfuel x + jfuelElems t

/-- Fuel for a nonempty member list. -/
def jfuelMems : List (String × Json) → Nat
  | [] => 0
  | (_, v) :: t => 1 + jfuel v + jfuelMems t

end

/-- Structural induction for the nested inductive `Json`. -/
theorem json_induction (P : Json → Prop)
    (h1 : P .null) (h2 : ∀ b, P (.bool b)) (h3 : ∀ n, P (.num n))
    (h4 : ∀ s, P (.str s))
    (h5 : ∀ xs, (∀ x ∈ xs, P x) → P (.arr xs))
    (h6 : ∀ kvs, (∀ p ∈ kvs, P p.2) → P (.obj kvs)) :
    ∀ v, P v := by
  have key : ∀ n (v : Json), sizeOf v ≤ n → P v := by
    intro n
    induction n using Nat.strong_induction_on with
    | _ n ih =>
      intro v hv
      cases v with
      | null => exact h1
      | bool b => exact h2 b
      | num m => exact h3 m
      | str s => exact h4 s
      | arr xs =>
        refine h5 xs (fun x hx => ?_)
        have hlt := List.sizeOf_lt_of_mem hx
        have hsz : sizeOf (Json.arr xs) = 1 + sizeOf xs := by simp
        exact ih (sizeOf x) (by omega) x le_rfl
      | obj kvs =>
        refine h6 kvs (fun p hp => ?_)
        have hlt := List.sizeOf_lt_of_mem hp
        have hsz : sizeOf (Json.obj kvs) = 1 + sizeOf kvs := by simp
        have hp2 : sizeOf p.2 < sizeOf p := by
          obtain ⟨a, b⟩ := p
          simp
        exact ih (sizeOf p.2) (by omega) p.2 le_rfl
  exact fun v => key (sizeOf v) v le_rfl

mutual

/-- Boolean equality on JSON values (Python `==` on decoded values,
except that dict comparison here is order-sensitive; every dict this
development compares is built in a canonical key order). -/
def jbeq : Json → Json → Bool
  | .null, .null => true
  | .bool a, .bool b => a == b
  | .num a, .num b => a == b
  | .str a, .str b => a == b
  | .arr a, .arr b => jbeqList a b
  | .obj a, .obj b => jbeqKvs a b
  | _, _ => false

/-- Pointwise equality of JSON arrays. -/
def jbeqList : List Json → List Json → Bool
  | [], [] => true
  | a :: as2, b :: bs => jbeq a b && jbeqList as2 bs
  | _, _ => false

/-- Pointwise equality of JSON object entries. -/
def jbeqKvs : List (String × Json) → List (String × Json) → Bool
  | [], [] => true
  | (k, v) :: as2, (l, w) :: bs => k == l && jbeq v w && jbeqKvs as2 bs
  | _, _ => false

end

theorem jbeq_self (a : Json) : jbeq a a = true := by
  induction a using json_induction with
  | h1 => rfl
  | h2 b => cases b <;> rfl
  | h3 n => simp [jbeq]
  | h4 s => simp [jbeq]
  | h5 xs ih =>
    simp only [jbeq]
    induction xs with
    | nil => rfl
    | cons x t iht =>
      simp only [jbeqList, Bool.and_eq_true]
      exact ⟨ih x (by simp), iht (fun z hz => ih z (by simp [hz]))⟩
  | h6 kvs ih =>
    simp only [jbeq]
    induction kvs with
    | nil => rfl
    | cons kv t iht =>
      obtain ⟨k, v⟩ := kv
      simp only [jbeqKvs, Bool.and_eq_true]
      exact ⟨⟨by simp, ih (k, v) (by simp)⟩,
        iht (fun z hz => ih z (by simp [hz]))⟩

theorem jbeq_eq : ∀ a b : Json, jbeq a b = true → a = b := by
  intro a
  induction a using json_induction with
  | h1 => intro b h; cases b <;> simp_all [jbeq]
  | h2 x => intro b h; cases b <;> simp_all [jbeq]
  | h3 n => intro b h; cases b <;> simp_all [jbeq]
  | h4 s => intro b h; cases b <;> simp_all [jbeq]
  | h5 xs ih =>
    intro b h
    cases b with
    | arr ys =>
      congr 1
      induction xs generalizing ys with
      | nil => cases ys with
        | nil => rfl
        | cons y u => simp [jbeq, jbeqList] at h
      | cons x t iht =>
        cases ys with
        | nil => simp [jbeq, jbeqList] at h
        | cons y u =>
          simp only [jbeq, jbeqList, Bool.and_eq_true] at h
          have h1 := ih x (by simp) y h.1
          have h2 := iht (fun z hz => ih z (by simp [hz])) u
            (by simp [jbeq]; exact h.2)
          rw [h1, h2]
    | null => simp [jbeq] at h
    | bool y => simp [jbeq] at h
    | num y => simp [jbeq] at h
    | str y => simp [jbeq] at h
    | obj y => simp [jbeq] at h
  | h6 kvs ih =>
    intro b h
    cases b with
    | obj ys =>
      congr 1
      induction kvs generalizing ys with
      | nil => cases ys with
        | nil => rfl
        | cons y u => simp [jbeq, jbeqKvs] at h
      | cons kv t iht =>
        obtain ⟨k, v⟩ := kv
        cases ys with
        | nil => simp [jbeq, jbeqKvs] at h
        | cons y u =>
          obtain ⟨l, w⟩ := y
          simp only [jbeq, jbeqKvs, Bool.and_eq_true] at h
          have hk : k = l := by
            have := h.1.1
            simpa using this
          have hv := ih (k, v) (by simp) w h.1.2
          have ht : t = u := by
            have := iht (fun z hz => ih z (by simp [hz])) u
              (by simp [jbeq]; exact h.2)
            simpa using this
          simp only at hv
          rw [hk, hv, ht]
    | null => simp [jbeq] at h
    | bool y => simp [jbeq] at h
    | num y => simp [jbeq] at h
    | str y => simp [jbeq] at h
    | arr y => simp [jbeq] at h

instance : DecidableEq Json := fun a b =>
  if h : jbeq a b = true then isTrue (jbeq_eq a b h)
  else isFalse (fun he => h (he ▸ jbeq_self a))

theorem isDigit_facts (c : Char) (h : c.isDigit = true) :
    isJsonWs c = false ∧ c ≠ ']' ∧ c ≠ '}' ∧ c ≠ '"' ∧ c ≠ '[' ∧ c ≠ '{' ∧
      c ≠ 'n' ∧ c ≠ 't' ∧ c ≠ 'f' := by
  refine ⟨?_, ?_, ?_, ?_, ?_, ?_, ?_, ?_, ?_⟩
  · by_contra hW
    have hW' : isJsonWs c = true := by
      cases hh : isJsonWs c
      · exact absurd hh hW
      · rfl
    simp only [isJsonWs, Bool.or_eq_true, decide_eq_true_eq] at hW'
    rcases hW' with ((rfl | rfl) | rfl) | rfl <;> exact absurd h (by decide)
  all_goals (rintro rfl; exact absurd h (by decide))

theorem intChars_head (i : Int) :
    ∃ c t, intChars i = c :: t ∧ (c = '-' ∨ c.isDigit = true) := by
  by_cases h : i < 0
  · exact ⟨'-', natChars i.natAbs, by simp [intChars, h], Or.inl rfl⟩
  · obtain ⟨c, t, hct⟩ : ∃ c t, natChars i.natAbs = c :: t := by
      cases hh : natChars i.natAbs with
      | nil => exact absurd hh (natChars_ne_nil _)
      | cons a b => exact ⟨a, b, rfl⟩
    refine ⟨c, t, by simp [intChars, h, hct], Or.inr ?_⟩
    exact natChars_digits _ c (by rw [hct]; simp)

theorem serJson_head (v : Json) :
    ∃ c t, serJson v = c :: t ∧ isJsonWs c = false ∧ c ≠ ']' ∧ c ≠ '}' := by
  cases v with
  | null => exact ⟨'n', _, rfl, by decide, by decide, by decide⟩
  | bool b =>
    cases b
    · exact ⟨'f', _, rfl, by decide, by decide, by decide⟩
    · exact ⟨'t', _, rfl, by decide, by decide, by decide⟩
  | num i =>
    obtain ⟨c, t, hct, hc⟩ := intChars_head i
    have hser : serJson (.num i) = c :: t := by
      rw [show serJson (.num i) = intChars i from rfl, hct]
    rcases hc with rfl | hc
    · exact ⟨'-', t, hser, by decide, by decide, by decide⟩
    · obtain ⟨hw, h1, h2, -⟩ := isDigit_facts c hc
      exact ⟨c, t, hser, hw, h1, h2⟩
  | str s =>
    exact ⟨'"', escList s.data ++ ['"'], rfl, by decide, by decide, by decide⟩
  | arr xs =>
    exact ⟨'[', serItems xs ++ [']'], rfl, by decide, by decide, by decide⟩
  | obj kvs =>
    exact ⟨'{', serFields kvs ++ ['}'], rfl, by decide, by decide, by decide⟩

theorem skipWs_cons (c : Char) (r : List Char) (h : isJsonWs c = false) :
    skipWs (c :: r) = c :: r := by
  simp [skipWs, List.dropWhile_cons, h]

theorem skipWs_ser (v : Json) (T : List Char) :
    skipWs (serJson v ++ T) = serJson v ++ T := by
  obtain ⟨c, t, hct, hw, -, -⟩ := serJson_head v
  rw [hct, List.cons_append, skipWs_cons _ _ hw]

theorem escChar_ne_nil (c : Char) : escChar c ≠ [] := by
  intro h
  have hp := parseStrBody_esc c ['"'] 0
  rw [h] at hp
  simp [parseStrBody, consChar] at hp

theorem escChar_length (c : Char) : 1 ≤ (escChar c).length := by
  cases hh : escChar c with
  | nil => exact absurd hh (escChar_ne_nil c)
  | cons a b => simp

theorem escList_length (l : List Char) : l.length ≤ (escList l).length := by
  induction l with
  | nil => simp [escList]
  | cons c t ih =>
    have hpos := escChar_length c
    simp only [escList, List.length_append, List.length_cons]
    omega

theorem string_mk_data (s : String) : String.mk s.data = s := rfl

theorem jfuel_pos (v : Json) : 1 ≤ jfuel v := by
  cases v <;> simp [jfuel]

theorem parseVal_quote (f : Nat) (s : List Char) :
    parseVal (f + 1) ('"' :: s) =
      (parseStrBody (s.length + 1) s).map fun p => (.str (String.mk p.1), p.2) := by
  simp [parseVal]

theorem parseVal_arr_nil (f : Nat) (T : List Char) :
    parseVal (f + 1) ('[' :: (']' :: T)) = some (.arr [], T) := by
  simp [parseVal, skipWs_cons ']' T (by decide)]

theorem parseVal_obj_nil (f : Nat) (T : List Char) :
    parseVal (f + 1) ('{' :: ('}' :: T)) = some (.obj [], T) := by
  simp [parseVal, skipWs_cons '}' T (by decide)]

theorem parseVal_lbracket_cons (f : Nat) (c1 : Char) (r1 : List Char)
    (hw : isJsonWs c1 = false) (hne : c1 ≠ ']') :
    parseVal (f + 1) ('[' :: (c1 :: r1)) =
      (parseElems f (c1 :: r1)).map fun p => (.arr p.1, p.2) := by
  simp [parseVal, skipWs_cons c1 r1 hw, hne]

theorem parseVal_lbrace_cons (f : Nat) (c1 : Char) (r1 : List Char)
    (hw : isJsonWs c1 = false) (hne : c1 ≠ '}') :
    parseVal (f + 1) ('{' :: (c1 :: r1)) =
      (parseMembers f (c1 :: r1)).map fun p => (.obj p.1, p.2) := by
  simp [parseVal, skipWs_cons c1 r1 hw, hne]

theorem parse_ser_bundle : ∀ fuel : Nat,
    (∀ (v : Json) (T : List Char), jfuel v ≤ fuel → numStop T = true →
        parseVal fuel (serJson v ++ T) = some (v, T)) ∧
    (∀ (xs : List Json) (T : List Char), xs ≠ [] → jfuelElems xs ≤ fuel →
        parseElems fuel (serItems xs ++ (']' :: T)) = some (xs, T)) ∧
    (∀ (kvs : List (String × Json)) (T : List Char), kvs ≠ [] → jfuelMems kvs ≤ fuel →
        parseMembers fuel (serFields kvs ++ ('}' :: T)) = some (kvs, T)) := by
  intro fuel
  induction fuel using Nat.strong_induction_on with
  | _ fuel ih =>
    refine ⟨?_, ?_, ?_⟩
    · -- values
      intro v T hf hT
      obtain ⟨f, rfl⟩ : ∃ f, fuel = f + 1 :=
        ⟨fuel - 1, by have := jfuel_pos v; omega⟩
      cases v with
      | null => simp [serJson, kwNull, parseVal]
      | bool b => cases b <;> simp [serJson, kwTrue, kwFalse, parseVal]
      | num i =>
        obtain ⟨c, t, hct, hc⟩ := intChars_head i
        have hne : c ≠ 'n' ∧ c ≠ 't' ∧ c ≠ 'f' ∧ c ≠ '"' ∧ c ≠ '[' ∧ c ≠ '{' := by
          rcases hc with rfl | hc
          · exact ⟨by decide, by decide, by decide, by decide, by decide, by decide⟩
          · obtain ⟨-, -, -, hq, hb2, hb3, hn, ht2, hf2⟩ := isDigit_facts c hc
            exact ⟨hn, ht2, hf2, hq, hb2, hb3⟩
        rw [show serJson (.num i) = intChars i from rfl, hct, List.cons_append]
        simp only [parseVal, if_neg hne.1, if_neg hne.2.1, if_neg hne.2.2.1,
          if_neg hne.2.2.2.1, if_neg hne.2.2.2.2.1, if_neg hne.2.2.2.2.2,
          if_pos (show c = '-' ∨ c.isDigit = true from hc)]
        rw [← List.cons_append, ← hct, parseNum_intChars i T hT]
      | str s =>
        rw [show serJson (.str s) ++ T =
          '"' :: (escList s.data ++ ('"' :: T)) from by
            simp [serJson, serStr]]
        rw [parseVal_quote]
        rw [parseStrBody_escList s.data T _ (by
          have := escList_length s.data
          simp only [List.length_append, List.length_cons]
          omega)]
        simp [string_mk_data]
      | arr xs =>
        cases xs with
        | nil =>
          rw [show serJson (.arr []) ++ T = '[' :: (']' :: T) from by
            simp [serJson, serItems]]
          exact parseVal_arr_nil f T
        | cons x t =>
          rw [show serJson (.arr (x :: t)) ++ T =
            '[' :: (serItems (x :: t) ++ (']' :: T)) from by
              simp [serJson, List.append_assoc]]
          obtain ⟨c1, t1, hx1, hw1, hbr1, -⟩ := serJson_head x
          obtain ⟨r1, hr1⟩ : ∃ r1, serItems (x :: t) ++ (']' :: T) = c1 :: r1 := by
            cases t with
            | nil => exact ⟨t1 ++ (']' :: T), by simp [serItems, hx1]⟩
            | cons y t2 =>
              exact ⟨(t1 ++ ',' :: serItems (y :: t2)) ++ (']' :: T),
                by simp [serItems, hx1]⟩
          rw [hr1, parseVal_lbracket_cons f c1 r1 hw1 hbr1, ← hr1]
          rw [(ih f (by omega)).2.1 (x :: t) T (by simp) (by
            simp only [jfuel] at hf
            omega)]
          simp
      | obj kvs =>
        cases kvs with
        | nil =>
          rw [show serJson (.obj []) ++ T = '{' :: ('}' :: T) from by
            simp [serJson, serFields]]
          exact parseVal_obj_nil f T
        | cons kv t =>
          obtain ⟨k, v⟩ := kv
          rw [show serJson (.obj ((k, v) :: t)) ++ T =
            '{' :: (serFields ((k, v) :: t) ++ ('}' :: T)) from by
              simp [serJson, List.append_assoc]]
          obtain ⟨r1, hr1⟩ : ∃ r1, serFields ((k, v) :: t) ++ ('}' :: T) = '"' :: r1 := by
            cases t with
            | nil =>
              exact ⟨(escList k.data ++ ['"'] ++ ':' :: serJson v) ++ ('}' :: T),
                by simp [serFields, serStr]⟩
            | cons e t2 =>
              exact ⟨(escList k.data ++ ['"'] ++ ':' :: serJson v ++
                ',' :: serFields (e :: t2)) ++ ('}' :: T),
                by simp [serFields, serStr]⟩
          rw [hr1, parseVal_lbrace_cons f '"' r1 (by decide) (by decide), ← hr1]
          rw [(ih f (by omega)).2.2 ((k, v) :: t) T (by simp) (by
            simp only [jfuel] at hf
            omega)]
          simp
    · -- array elements
      intro xs T hne hf
      cases xs with
      | nil => exact absurd rfl hne
      | cons x t =>
        obtain ⟨f, rfl⟩ : ∃ f, fuel = f + 1 :=
          ⟨fuel - 1, by simp [jfuelElems] at hf; omega⟩
        have hfx : jfuel x ≤ f := by simp [jfuelElems] at hf; omega
        cases t with
        | nil =>
          rw [show serItems [x] ++ (']' :: T) = serJson x ++ (']' :: T) from by
            simp [serItems]]
          simp only [parseElems]
          rw [(ih f (by omega)).1 x (']' :: T) hfx rfl]
          simp [skipWs_cons ']' T (by decide)]
        | cons y t2 =>
          rw [show serItems (x :: y :: t2) ++ (']' :: T) =
            serJson x ++ (',' :: (serItems (y :: t2) ++ (']' :: T))) from by
              simp [serItems, List.append_assoc]]
          simp only [parseElems]
          rw [(ih f (by omega)).1 x (',' :: (serItems (y :: t2) ++ (']' :: T))) hfx rfl]
          simp only [Option.bind_eq_bind, Option.some_bind]
          rw [show skipWs (',' :: (serItems (y :: t2) ++ (']' :: T))) =
            ',' :: (serItems (y :: t2) ++ (']' :: T)) from skipWs_cons _ _ (by decide)]
          simp only [if_pos rfl]
          obtain ⟨c2, t3, hy2, hw2, -, -⟩ := serJson_head y
          obtain ⟨r2, hr2⟩ : ∃ r2, serItems (y :: t2) ++ (']' :: T) = c2 :: r2 := by
            cases t2 with
            | nil => exact ⟨t3 ++ (']' :: T), by simp [serItems, hy2]⟩
            | cons z t4 =>
              exact ⟨(t3 ++ ',' :: serItems (z :: t4)) ++ (']' :: T),
                by simp [serItems, hy2]⟩
          rw [hr2, skipWs_cons c2 r2 hw2, ← hr2]
          rw [(ih f (by omega)).2.1 (y :: t2) T (by simp) (by
            simp only [jfuelElems] at hf ⊢
            omega)]
          simp
    · -- object members
      intro kvs T hne hf
      cases kvs with
      | nil => exact absurd rfl hne
      | cons kv t =>
        obtain ⟨k, v⟩ := kv
        obtain ⟨f, rfl⟩ : ∃ f, fuel = f + 1 :=
          ⟨fuel - 1, by simp [jfuelMems] at hf; omega⟩
        have hfv : jfuel v ≤ f := by simp [jfuelMems] at hf; omega
        cases t with
        | nil =>
          rw [show serFields [(k, v)] ++ ('}' :: T) =
            '"' :: (escList k.data ++ ('"' :: (':' :: (serJson v ++ ('}' :: T))))) from by
              simp [serFields, serStr]]
          simp only [parseMembers, if_pos rfl]
          rw [parseStrBody_escList k.data _ _ (by
            have := escList_length k.data
            simp only [List.length_append, List.length_cons]
            omega)]
          simp only [Option.bind_eq_bind, Option.some_bind]
          rw [show skipWs (':' :: (serJson v ++ ('}' :: T))) =
            ':' :: (serJson v ++ ('}' :: T)) from skipWs_cons _ _ (by decide)]
          simp only [if_pos rfl]
          rw [skipWs_ser v ('}' :: T)]
          rw [(ih f (by omega)).1 v ('}' :: T) hfv rfl]
          simp [skipWs_cons '}' T (by decide), string_mk_data]
        | cons e t2 =>
          rw [show serFields ((k, v) :: e :: t2) ++ ('}' :: T) =
            '"' :: (escList k.data ++ ('"' :: (':' :: (serJson v ++
              (',' :: (serFields (e :: t2) ++ ('}' :: T))))))) from by
              simp [serFields, serStr]]
          simp only [parseMembers, if_pos rfl]
          rw [parseStrBody_escList k.data _ _ (by
            have := escList_length k.data
            simp only [List.length_append, List.length_cons]
            omega)]
          simp only [Option.bind_eq_bind, Option.some_bind]
          rw [show skipWs (':' :: (serJson v ++
              (',' :: (serFields (e :: t2) ++ ('}' :: T))))) =
            ':' :: (serJson v ++ (',' :: (serFields (e :: t2) ++ ('}' :: T))))
            from skipWs_cons _ _ (by decide)]
          simp only [if_pos rfl]
          rw [skipWs_ser v (',' :: (serFields (e :: t2) ++ ('}' :: T)))]
          rw [(ih f (by omega)).1 v (',' :: (serFields (e :: t2) ++ ('}' :: T))) hfv rfl]
          simp only [Option.bind_eq_bind, Option.some_bind]
          rw [show skipWs (',' :: (serFields (e :: t2) ++ ('}' :: T))) =
            ',' :: (serFields (e :: t2) ++ ('}' :: T)) from skipWs_cons _ _ (by decide)]
          simp only [if_pos rfl]
          obtain ⟨e1, e2⟩ := e
          obtain ⟨r4, hr4⟩ : ∃ r4, serFields ((e1, e2) :: t2) ++ ('}' :: T) = '"' :: r4 := by
            cases t2 with
            | nil =>
              exact ⟨(escList e1.data ++ ['"'] ++ ':' :: serJson e2) ++ ('}' :: T),
                by simp [serFields, serStr]⟩
            | cons g t4 =>
              exact ⟨(escList e1.data ++ ['"'] ++ ':' :: serJson e2 ++
                ',' :: serFields (g :: t4)) ++ ('}' :: T),
                by simp [serFields, serStr]⟩
          rw [hr4, skipWs_cons '"' r4 (by decide), ← hr4]
          rw [(ih f (by omega)).2.2 ((e1, e2) :: t2) T (by simp) (by
            simp only [jfuelMems] at hf ⊢
            omega)]
          simp [string_mk_data]

theorem parseVal_ser (v : Json) (T : List Char) (fuel : Nat)
    (h1 : jfuel v ≤ fuel) (h2 : numStop T = true) :
    parseVal fuel (serJson v ++ T) = some (v, T) :=
  (parse_ser_bundle fuel).1 v T h1 h2

theorem intChars_ne_nil (i : Int) : intChars i ≠ [] := by
  obtain ⟨c, t, hct, -⟩ := intChars_head i
  rw [hct]
  simp

theorem jfuelElems_bound (xs : List Json)
    (h : ∀ x ∈ xs, jfuel x ≤ (serJson x).length) :
    jfuelElems xs ≤ (serItems xs).length + 1 := by
  induction xs with
  | nil => simp [jfuelElems, serItems]
  | cons x t iht =>
    have hx := h x (by simp)
    cases t with
    | nil =>
      simp only [jfuelElems, serItems]
      omega
    | cons y t2 =>
      have hrest := iht (fun z hz => h z (by simp [hz]))
      rw [show serItems (x :: y :: t2) = serJson x ++ ',' :: serItems (y :: t2)
        from rfl]
      simp only [jfuelElems, List.length_append, List.length_cons] at *
      omega

theorem jfuelMems_bound (kvs : List (String × Json))
    (h : ∀ p ∈ kvs, jfuel p.2 ≤ (serJson p.2).length) :
    jfuelMems kvs ≤ (serFields kvs).length + 1 := by
  induction kvs with
  | nil => simp [jfuelMems, serFields]
  | cons kv t iht =>
    obtain ⟨k, v⟩ := kv
    have hv := h (k, v) (by simp)
    cases t with
    | nil =>
      rw [show serFields [(k, v)] = serStr k ++ ':' :: serJson v from rfl]
      simp only [jfuelMems, List.length_append, List.length_cons] at *
      omega
    | cons e t2 =>
      have hrest := iht (fun z hz => h z (by simp [hz]))
      rw [show serFields ((k, v) :: e :: t2) =
        (serStr k ++ ':' :: serJson v) ++ ',' :: serFields (e :: t2) from rfl]
      simp only [jfuelMems, List.length_append, List.length_cons] at *
      omega

theorem jfuel_le_length (v : Json) : jfuel v ≤ (serJson v).length := by
  induction v using json_induction with
  | h1 => simp [jfuel, serJson, kwNull]
  | h2 b => cases b <;> simp [jfuel, serJson, kwTrue, kwFalse]
  | h3 n =>
    have := intChars_ne_nil n
    have : 1 ≤ (intChars n).length := by
      cases hh : intChars n with
      | nil => exact absurd hh this
      | cons a b => simp
    simpa [jfuel, serJson] using this
  | h4 s => simp [jfuel, serJson, serStr]
  | h5 xs ihm =>
    have := jfuelElems_bound xs ihm
    rw [show serJson (.arr xs) = '[' :: (serItems xs ++ [']']) from rfl]
    simp only [jfuel, List.length_cons, List.length_append]
    omega
  | h6 kvs ihm =>
    have := jfuelMems_bound kvs ihm
    rw [show serJson (.obj kvs) = '{' :: (serFields kvs ++ ['}']) from rfl]
    simp only [jfuel, List.length_cons, List.length_append]
    omega

/-- Top-level round trip of the document codec: `json.loads` inverts
`json.dumps` on every modelled JSON value. -/
theorem parseJson_serJson (v : Json) : parseJson (serJson v) = some v := by
  have h1 : skipWs (serJson v) = serJson v := by
    have := skipWs_ser v []
    simpa using this
  have h2 : parseVal ((serJson v).length + 1) (serJson v ++ []) = some (v, []) :=
    parseVal_ser v [] _ (by have := jfuel_le_length v; omega) rfl
  simp only [List.append_nil] at h2
  rw [parseJson, h1, h2]
  simp [skipWs]

/-! ## Framed codec streams

Embeds `upm/channel/json_transport.py` (the identical
`vsock_bridge.json_transport` module backs `vsock.py`).  `send` writes
compact JSON plus a single newline; `receive` reads chunks, buffers,
splits on newlines, strips each line and yields `json.loads` of each
nonempty line.  The encoded stream is ASCII, so UTF-8 bytes are
modelled as characters. -/

/-- Byte stream written by `send(sock, obj)`:
`json.dumps(obj, separators=(",", ":")) + "\n"` UTF-8 encoded. -/
def sendBytes (obj : Json) : List Char :=
  serJson obj ++ ['\n']

/-- Result of the inner `while b"\n" in buf` loop of `receive`: the
complete newline-terminated lines (without their newlines), and the
remaining partial line kept in the buffer. -/
def splitNl : List Char → List (List Char) × List Char
  | [] => ([], [])
  | c :: s =>
    let p := splitNl s
    if c = '\n' then ([] :: p.1, p.2)
    else
      match p.1 with
      | [] => ([], c :: p.2)
      | l :: ls => ((c :: l) :: ls, p.2)

/-- Python `bytes.strip()` whitespace (space, tab, LF, VT, FF, CR). -/
def isPyWs (c : Char) : Bool :=
  c.toNat = 0x20 || (0x09 ≤ c.toNat && c.toNat ≤ 0x0d)

/-- `line.strip()` on a byte line. -/
def stripPyWs (l : List Char) : List Char :=
  ((l.dropWhile isPyWs).reverse.dropWhile isPyWs).reverse

/-- Outer loop of `receive`: each element of `chunks` is one value
returned by `sock.recv`; an empty chunk (or the end of the list) is the
zero-byte read that ends the stream, discarding the buffered partial
line.  Returns the complete lines in arrival order. -/
def recvLines : List (List Char) → List Char → List (List Char)
  | [], _ => []
  | c :: cs, buf =>
    if c = [] then []
    else
      let p := splitNl (buf ++ c)
      p.1 ++ recvLines cs p.2

/-- Per-line processing of `receive`: strip, skip empty lines, decode
with `json.loads`.  A line that fails to decode raises out of the
generator, so no later message is yielded; the Bool records that the
exception was raised. -/
def decodeLines : List (List Char) → List Json × Bool
  | [] => ([], false)
  | l :: ls =>
    let t := stripPyWs l
    if t = [] then decodeLines ls
    else
      match parseJson t with
      | some j =>
        let p := decodeLines ls
        (j :: p.1, p.2)
      | none => ([], true)

/-- Embeds `receive(sock)` run to completion on a stream delivered as
`chunks`: the decoded messages in order, plus whether a decode error
was raised. -/
def receive (chunks : List (List Char)) : List Json × Bool :=
  decodeLines (recvLines chunks [])

theorem splitNl_no_nl (s : List Char) (h : '\n' ∉ s) : splitNl s = ([], s) := by
  induction s with
  | nil => rfl
  | cons c t ih =>
    have hc : ¬c = '\n' := fun hh => h (by simp [hh])
    have ht := ih (fun hh => h (by simp [hh]))
    simp only [splitNl, ht, if_neg hc]

theorem splitNl_line (l s : List Char) (h : '\n' ∉ l) :
    splitNl (l ++ '\n' :: s) = (l :: (splitNl s).1, (splitNl s).2) := by
  induction l with
  | nil => simp [splitNl]
  | cons c t ih =>
    have hc : ¬c = '\n' := fun hh => h (by simp [hh])
    have ht := ih (fun hh => h (by simp [hh]))
    simp [List.cons_append, splitNl, List.append_eq, ht, if_neg hc]

theorem splitNl_rem (s : List Char) : '\n' ∉ (splitNl s).2 := by
  induction s with
  | nil => simp [splitNl]
  | cons c t ih =>
    by_cases hc : c = '\n'
    · simp only [splitNl, if_pos hc]
      exact ih
    · simp only [splitNl, if_neg hc]
      cases hh : (splitNl t).1 with
      | nil =>
        simp only []
        intro hmem
        rcases List.mem_cons.mp hmem with rfl | hmem2
        · exact hc rfl
        · exact ih hmem2
      | cons l ls =>
        simp only []
        exact ih

theorem splitNl_append (s t : List Char) :
    splitNl (s ++ t) =
      ((splitNl s).1 ++ (splitNl ((splitNl s).2 ++ t)).1,
       (splitNl ((splitNl s).2 ++ t)).2) := by
  induction s with
  | nil => simp [splitNl]
  | cons c s2 ih =>
    by_cases hc : c = '\n'
    · subst hc
      simp only [List.cons_append, splitNl, if_pos rfl, ih]
      simp
      constructor <;> rw [ih]
    · simp only [List.cons_append, splitNl, if_neg hc, ih, List.append_eq]
      cases hh : (splitNl s2).1 with
      | nil =>
        simp only [hh, List.nil_append]
        cases hg : (splitNl ((splitNl s2).2 ++ t)).1 with
        | nil => simp [splitNl, hh, hg, hc, List.append_eq]
        | cons l ls => simp [splitNl, hh, hg, hc, List.append_eq]
      | cons l ls =>
        simp [splitNl, hh, hc, List.cons_append, List.append_eq]

theorem recvLines_join (cs : List (List Char)) : ∀ (buf : List Char), '\n' ∉ buf →
    (∀ c ∈ cs, c ≠ []) → recvLines cs buf = (splitNl (buf ++ cs.flatten)).1 := by
  induction cs with
  | nil =>
    intro buf hb _
    simp [recvLines, splitNl_no_nl buf hb]
  | cons c cs ih =>
    intro buf hb hcs
    have hc : c ≠ [] := hcs c (by simp)
    simp only [recvLines, if_neg hc]
    rw [ih _ (splitNl_rem _) (fun x hx => hcs x (by simp [hx]))]
    rw [show buf ++ (c :: cs).flatten = (buf ++ c) ++ cs.flatten from by simp]
    conv_rhs => rw [splitNl_append (buf ++ c) cs.flatten]

theorem hexDigit_not_nl : ∀ d, d < 16 → ¬hexDigit d = '\n' := by decide

theorem uEscape_not_nl (n : Nat) : '\n' ∉ uEscape n := by
  intro hmem
  simp only [uEscape, hex4, List.mem_cons, List.mem_singleton, List.not_mem_nil,
    or_false] at hmem
  rcases hmem with h | h | h | h | h | h
  · exact absurd h (by decide)
  · exact absurd h (by decide)
  · exact hexDigit_not_nl _ (Nat.mod_lt _ (by norm_num)) h.symm
  · exact hexDigit_not_nl _ (Nat.mod_lt _ (by norm_num)) h.symm
  · exact hexDigit_not_nl _ (Nat.mod_lt _ (by norm_num)) h.symm
  · exact hexDigit_not_nl _ (Nat.mod_lt _ (by norm_num)) h.symm

theorem escChar_not_nl (c : Char) : '\n' ∉ escChar c := by
  by_cases h1 : c = '"'
  · simp [escChar, h1]
  by_cases h2 : c = '\\'
  · simp [escChar, h1, h2]
  by_cases h3 : c.toNat = 8
  · simp [escChar, h1, h2, h3]
  by_cases h4 : c.toNat = 9
  · simp [escChar, h1, h2, h3, h4]
  by_cases h5 : c.toNat = 10
  · simp [escChar, h1, h2, h3, h4, h5]
  by_cases h6 : c.toNat = 12
  · simp [escChar, h1, h2, h3, h4, h5, h6]
  by_cases h7 : c.toNat = 13
  · simp [escChar, h1, h2, h3, h4, h5, h6, h7]
  by_cases h8 : c.toNat < 0x20
  · simp only [escChar, if_neg h1, if_neg h2, if_neg h3, if_neg h4, if_neg h5,
      if_neg h6, if_neg h7, if_pos h8]
    exact uEscape_not_nl _
  by_cases h9 : c.toNat ≤ 0x7e
  · simp only [escChar, if_neg h1, if_neg h2, if_neg h3, if_neg h4, if_neg h5,
      if_neg h6, if_neg h7, if_neg h8, if_pos h9]
    intro hmem
    have hcn : '\n' = c := by simpa using hmem
    rw [← hcn] at h5
    exact h5 (by decide)
  by_cases h10 : c.toNat ≤ 0xffff
  · simp only [escChar, if_neg h1, if_neg h2, if_neg h3, if_neg h4, if_neg h5,
      if_neg h6, if_neg h7, if_neg h8, if_neg h9, if_pos h10]
    exact uEscape_not_nl _
  · simp only [escChar, if_neg h1, if_neg h2, if_neg h3, if_neg h4, if_neg h5,
      if_neg h6, if_neg h7, if_neg h8, if_neg h9, if_neg h10]
    intro hmem
    rcases List.mem_append.mp hmem with h | h
    · exact uEscape_not_nl _ h
    · exact uEscape_not_nl _ h

theorem escList_not_nl (l : List Char) : '\n' ∉ escList l := by
  induction l with
  | nil => simp [escList]
  | cons c t ih =>
    intro hmem
    rcases List.mem_append.mp hmem with h | h
    · exact escChar_not_nl c h
    · exact ih h

theorem isDigit_not_nl (c : Char) (h : c.isDigit = true) : '\n' ≠ c := by
  intro hh
  rw [← hh] at h
  exact absurd h (by decide)

theorem intChars_not_nl (i : Int) : '\n' ∉ intChars i := by
  have hnat : ∀ n : Nat, '\n' ∉ natChars n := by
    intro n hmem
    exact isDigit_not_nl _ (natChars_digits n _ hmem) rfl
  by_cases h : i < 0
  · simp only [intChars, if_pos h]
    intro hmem
    rcases List.mem_cons.mp hmem with hh | hh
    · exact absurd hh (by decide)
    · exact hnat _ hh
  · simp only [intChars, if_neg h]
    exact hnat _

theorem serItems_not_nl (xs : List Json)
    (h : ∀ x ∈ xs, '\n' ∉ serJson x) : '\n' ∉ serItems xs := by
  induction xs with
  | nil => simp [serItems]
  | cons x t ih =>
    cases t with
    | nil =>
      rw [show serItems [x] = serJson x from rfl]
      exact h x (by simp)
    | cons y t2 =>
      rw [show serItems (x :: y :: t2) = serJson x ++ ',' :: serItems (y :: t2)
        from rfl]
      intro hmem
      rcases List.mem_append.mp hmem with hh | hh
      · exact h x (by simp) hh
      · rcases List.mem_cons.mp hh with hh2 | hh2
        · exact absurd hh2 (by decide)
        · exact ih (fun z hz => h z (by simp [hz])) hh2

theorem serStr_not_nl (k : String) : '\n' ∉ serStr k := by
  intro hmem
  rw [serStr] at hmem
  rcases List.mem_cons.mp hmem with hh | hh
  · exact absurd hh (by decide)
  · rcases List.mem_append.mp hh with hh2 | hh2
    · exact escList_not_nl _ hh2
    · simp at hh2

theorem serFields_not_nl (kvs : List (String × Json))
    (h : ∀ p ∈ kvs, '\n' ∉ serJson p.2) : '\n' ∉ serFields kvs := by
  induction kvs with
  | nil => simp [serFields]
  | cons kv t ih =>
    obtain ⟨k, v⟩ := kv
    have hfield : '\n' ∉ serStr k ++ ':' :: serJson v := by
      intro hmem
      rcases List.mem_append.mp hmem with hh | hh
      · exact serStr_not_nl k hh
      · rcases List.mem_cons.mp hh with hh2 | hh2
        · exact absurd hh2 (by decide)
        · exact h (k, v) (by simp) hh2
    cases t with
    | nil => exact hfield
    | cons e t2 =>
      rw [show serFields ((k, v) :: e :: t2) =
        (serStr k ++ ':' :: serJson v) ++ ',' :: serFields (e :: t2) from rfl]
      intro hmem
      rcases List.mem_append.mp hmem with hh | hh
      · exact hfield hh
      · rcases List.mem_cons.mp hh with hh2 | hh2
        · exact absurd hh2 (by decide)
        · exact ih (fun z hz => h z (by simp [hz])) hh2

theorem serJson_not_nl (v : Json) : '\n' ∉ serJson v := by
  induction v using json_induction with
  | h1 => decide
  | h2 b => cases b <;> decide
  | h3 n => exact intChars_not_nl n
  | h4 s => exact serStr_not_nl s
  | h5 xs ihm =>
    rw [show serJson (.arr xs) = '[' :: (serItems xs ++ [']']) from rfl]
    intro hmem
    rcases List.mem_cons.mp hmem with hh | hh
    · exact absurd hh (by decide)
    · rcases List.mem_append.mp hh with hh2 | hh2
      · exact serItems_not_nl xs ihm hh2
      · simp at hh2
  | h6 kvs ihm =>
    rw [show serJson (.obj kvs) = '{' :: (serFields kvs ++ ['}']) from rfl]
    intro hmem
    rcases List.mem_cons.mp hmem with hh | hh
    · exact absurd hh (by decide)
    · rcases List.mem_append.mp hh with hh2 | hh2
      · exact serFields_not_nl kvs ihm hh2
      · simp at hh2

theorem isDigit_not_pyws (c : Char) (h : c.isDigit = true) : isPyWs c = false := by
  by_contra hW
  have hW2 : isPyWs c = true := by
    cases hh : isPyWs c
    · exact absurd hh hW
    · rfl
  simp only [isPyWs, Bool.or_eq_true, decide_eq_true_eq, Bool.and_eq_true] at hW2
  have hval : c.toNat = 32 ∨ c.toNat = 9 ∨ c.toNat = 10 ∨ c.toNat = 11 ∨
      c.toNat = 12 ∨ c.toNat = 13 := by omega
  rcases hval with hv | hv | hv | hv | hv | hv <;>
    (rw [← char_ofNat_eq c _ hv] at h; exact absurd h (by decide))

theorem serJson_head_pyws (v : Json) :
    ∃ c t, serJson v = c :: t ∧ isPyWs c = false := by
  cases v with
  | null => exact ⟨'n', _, rfl, by decide⟩
  | bool b =>
    cases b
    · exact ⟨'f', _, rfl, by decide⟩
    · exact ⟨'t', _, rfl, by decide⟩
  | num i =>
    obtain ⟨c, t, hct, hc⟩ := intChars_head i
    have hser : serJson (.num i) = c :: t := by
      rw [show serJson (.num i) = intChars i from rfl, hct]
    rcases hc with rfl | hc
    · exact ⟨'-', t, hser, by decide⟩
    · exact ⟨c, t, hser, isDigit_not_pyws c hc⟩
  | str s =>
    exact ⟨'"', escList s.data ++ ['"'], rfl, by decide⟩
  | arr xs => exact ⟨'[', serItems xs ++ [']'], rfl, by decide⟩
  | obj kvs => exact ⟨'{', serFields kvs ++ ['}'], rfl, by decide⟩

theorem natChars_last (n : Nat) :
    ∃ d, d < 10 ∧ (natChars n).getLast? = some (Nat.digitChar d) := by
  by_cases h : n < 10
  · rw [natChars_lt10 n h]
    exact ⟨n, h, rfl⟩
  · rw [natChars_ge10 n (by omega)]
    exact ⟨n % 10, Nat.mod_lt _ (by omega), List.getLast?_concat _⟩

theorem serJson_last_pyws (v : Json) :
    ∃ c, (serJson v).getLast? = some c ∧ isPyWs c = false := by
  cases v with
  | null => exact ⟨'l', by decide, by decide⟩
  | bool b =>
    cases b
    · exact ⟨'e', by decide, by decide⟩
    · exact ⟨'e', by decide, by decide⟩
  | num i =>
    obtain ⟨d, hd, hlast⟩ := natChars_last i.natAbs
    have hdig : (Nat.digitChar d).isDigit = true := digitChar_isDigit d hd
    refine ⟨Nat.digitChar d, ?_, isDigit_not_pyws _ hdig⟩
    rw [show serJson (.num i) = intChars i from rfl, intChars]
    by_cases h : i < 0
    · rw [if_pos h]
      obtain ⟨c, t, hct⟩ : ∃ c t, natChars i.natAbs = c :: t := by
        cases hh : natChars i.natAbs with
        | nil => exact absurd hh (natChars_ne_nil _)
        | cons a b => exact ⟨a, b, rfl⟩
      rw [hct, List.getLast?_cons_cons, ← hct]
      exact hlast
    · rw [if_neg h]
      exact hlast
  | str s =>
    refine ⟨'"', ?_, by decide⟩
    rw [show serJson (.str s) = ('"' :: escList s.data) ++ ['"'] from by
      simp [serJson, serStr]]
    exact List.getLast?_concat _
  | arr xs =>
    refine ⟨']', ?_, by decide⟩
    rw [show serJson (.arr xs) = ('[' :: serItems xs) ++ [']'] from by
      simp [serJson]]
    exact List.getLast?_concat _
  | obj kvs =>
    refine ⟨'}', ?_, by decide⟩
    rw [show serJson (.obj kvs) = ('{' :: serFields kvs) ++ ['}'] from by
      simp [serJson]]
    exact List.getLast?_concat _

theorem stripPyWs_eq_self (l : List Char)
    (h1 : ∀ c t, l = c :: t → isPyWs c = false)
    (h2 : ∀ c, l.getLast? = some c → isPyWs c = false) :
    stripPyWs l = l := by
  cases l with
  | nil => rfl
  | cons c t =>
    rw [stripPyWs, List.dropWhile_cons, h1 c t rfl]
    simp only [Bool.false_eq_true, if_false]
    obtain ⟨d, r, hdr⟩ : ∃ d r, (c :: t).reverse = d :: r := by
      cases hh : (c :: t).reverse with
      | nil => exact absurd hh (by simp)
      | cons a b => exact ⟨a, b, rfl⟩
    have hlast : (c :: t).getLast? = some d := by
      rw [← List.head?_reverse, hdr]
      rfl
    rw [hdr, List.dropWhile_cons, h2 d hlast]
    simp only [Bool.false_eq_true, if_false]
    rw [← hdr, List.reverse_reverse]

theorem serJson_ne_nil (v : Json) : serJson v ≠ [] := by
  obtain ⟨c, t, hct, -⟩ := serJson_head_pyws v
  rw [hct]
  simp

theorem stripPyWs_ser (v : Json) : stripPyWs (serJson v) = serJson v := by
  apply stripPyWs_eq_self
  · intro c t hct
    obtain ⟨c2, t2, hct2, hw⟩ := serJson_head_pyws v
    rw [hct] at hct2
    obtain ⟨rfl, -⟩ := List.cons.inj hct2.symm
    exact hw
  · intro c hlast
    obtain ⟨c2, hlast2, hw⟩ := serJson_last_pyws v
    rw [hlast] at hlast2
    obtain rfl := Option.some.inj hlast2.symm
    exact hw

theorem decodeLines_ser (msgs : List Json) :
    decodeLines (msgs.map serJson) = (msgs, false) := by
  induction msgs with
  | nil => rfl
  | cons v t ih =>
    simp only [List.map_cons, decodeLines, stripPyWs_ser v]
    rw [if_neg (serJson_ne_nil v), parseJson_serJson v, ih]

theorem splitNl_encoded (msgs : List Json) :
    splitNl ((msgs.map sendBytes).flatten) = (msgs.map serJson, []) := by
  induction msgs with
  | nil => rfl
  | cons v t ih =>
    simp only [List.map_cons, List.flatten_cons, sendBytes]
    rw [List.append_assoc,
      show ['\n'] ++ (t.map sendBytes).flatten =
        '\n' :: (t.map sendBytes).flatten from rfl,
      splitNl_line _ _ (serJson_not_nl v), ih]

theorem receive_encoded (msgs : List Json) (chunks : List (List Char))
    (hjoin : chunks.flatten = (msgs.map sendBytes).flatten)
    (hne : ∀ c ∈ chunks, c ≠ []) :
    receive chunks = (msgs, false) := by
  rw [receive, recvLines_join chunks [] (by simp) hne]
  simp only [List.nil_append, hjoin]
  rw [splitNl_encoded msgs, decodeLines_ser]

theorem recvLines_drop_tail (cs : List (List Char)) :
    ∀ (buf t : List Char), '\n' ∉ t → '\n' ∉ buf →
    recvLines (cs ++ [t]) buf = recvLines cs buf := by
  induction cs with
  | nil =>
    intro buf t ht hb
    simp only [List.nil_append, recvLines]
    by_cases hte : t = []
    · simp [hte]
    · rw [if_neg hte]
      have hsp : splitNl (buf ++ t) = ([], buf ++ t) := splitNl_no_nl _ (by
        intro hm
        rcases List.mem_append.mp hm with h | h
        · exact hb h
        · exact ht h)
      simp [hsp, recvLines]
  | cons c cs ih =>
    intro buf t ht hb
    simp only [List.cons_append, recvLines]
    by_cases hce : c = []
    · simp [hce]
    · rw [if_neg hce, if_neg hce, show cs.append [t] = cs ++ [t] from rfl,
        ih _ t ht (splitNl_rem _)]

/-! ## Protocol messages

Embeds `vsock_bridge/protocols/dpm.py`.  Payload dicts are association
lists of JSON values; validating constructors return `Except PyErr`
where the Python code raises. -/

/-- Python exception classes raised by the embedded code. -/
inductive PyErr where
  | valueError : PyErr
  | attributeError : PyErr
  | typeError : PyErr
  | keyError : PyErr
deriving DecidableEq, Repr

/-- `d.get(k)`: first binding of `k`, if any (dicts hold each key once). -/
def pyGet {α : Type} (d : List (String × α)) (k : String) : Option α :=
  match d with
  | [] => none
  | (k2, v) :: t => if k2 = k then some v else pyGet t k

/-- `d[k] = v`: replace the value in place if the key exists, else append. -/
def dictSet {α : Type} (d : List (String × α)) (k : String) (v : α) :
    List (String × α) :=
  match d with
  | [] => [(k, v)]
  | (k2, w) :: t => if k2 = k then (k2, v) :: t else (k2, w) :: dictSet t k v

/-- `del d[k]`. -/
def dictDel {α : Type} (d : List (String × α)) (k : String) : List (String × α) :=
  d.filter fun p => p.1 ≠ k

/-- `_str_ok(v, name)` applied to a `dict.get` result: `v` must be a
present, non-empty JSON string. -/
def strOk (v : Option Json) : Except PyErr String :=
  match v with
  | some (.str s) => if s = "" then .error .valueError else .ok s
  | _ => .error .valueError

/-- A `str | None` Python value rendered back to JSON. -/
def optStrJson : Option String → Json
  | none => .null
  | some s => .str s

/-- Validation of an optional `str | None` field fetched from a payload:
absent or `null` is `None`; any other non-string value raises. -/
def optStrOk (v : Option Json) : Except PyErr (Option String) :=
  match v with
  | none => .ok none
  | some .null => .ok none
  | some (.str s) => .ok (some s)
  | some _ => .error .valueError

/-- `dpm.get_message_type(msg)`: `msg.get("type")`. -/
def get_message_type (msg : List (String × Json)) : Option Json :=
  pyGet msg "type"

/-- Instance state of a `PassthroughAck` object: `__init__` validates
`current_vm`, `status` and `reason` and then stores only `_data` with
keys `device_id`, `current_vm` and `status` — the `reason` argument is
validated but never stored, and the class defines no `reason` property. -/
structure PassthroughAck where
  device_id : String
  current_vm : Option String
  status : String
deriving DecidableEq, Repr

/-- `PassthroughAck.__init__(device_id, current_vm, status, reason)`
with already-typed `current_vm`/`reason` (their isinstance checks pass):
status must be in `("ok", "denied", "error")`; `_str_ok(device_id)`
runs while building `_data`. -/
def PassthroughAck.init (device_id : String) (current_vm : Option String)
    (status : String) (_reason : Option String) : Except PyErr PassthroughAck :=
  if status = "ok" ∨ status = "denied" ∨ status = "error" then
    if device_id = "" then .error .valueError
    else .ok ⟨device_id, current_vm, status⟩
  else .error .valueError

/-- Reading `self.reason` on a `PassthroughAck`: `__init__` never
assigns a `reason` attribute and the class has no `reason` property, so
Python attribute lookup raises `AttributeError`. -/
def PassthroughAck.reasonAttr (_ : PassthroughAck) : Except PyErr (Option String) :=
  .error .attributeError

/-- `PassthroughAck.to_json` (dpm.py lines 192-200): builds the payload
dict from the properties backed by `_data`, then evaluates
`if self.reason is not None`, which raises `AttributeError` (see
`PassthroughAck.reasonAttr`). -/
def PassthroughAck.to_json (a : PassthroughAck) : Except PyErr Json := do
  let payload : List (String × Json) :=
    [("device_id", .str a.device_id), ("current_vm", optStrJson a.current_vm),
     ("status", .str a.status)]
  let r ← a.reasonAttr
  let payload := match r with
    | some reason => payload ++ [("reason", .str reason)]
    | none => payload
  pure (.obj [("type", .str "passthrough_ack"), ("payload", .obj payload)])

/-- `PassthroughAck.from_payload` (dpm.py lines 202-214): `device_id`
via `_str_ok`; `current_vm` from `"current_vm"` falling back to
`"current-vm"`; `status` defaults to `"ok"` when absent and must be in
`("ok", "denied", "error")` (a non-string present value compares
unequal to all three and raises); `reason` optional. -/
def PassthroughAck.from_payload (pl : List (String × Json)) :
    Except PyErr PassthroughAck := do
  let device_id ← strOk (pyGet pl "device_id")
  let cvmRaw : Option Json :=
    match pyGet pl "current_vm" with
    | some v => some v
    | none => pyGet pl "current-vm"
  let statusRaw : Json := (pyGet pl "status").getD (.str "ok")
  let reasonRaw : Option Json := pyGet pl "reason"
  let current_vm ← optStrOk cvmRaw
  let status ← (match statusRaw with
    | .str s =>
      if s = "ok" ∨ s = "denied" ∨ s = "error" then Except.ok s
      else Except.error PyErr.valueError
    | _ => Except.error PyErr.valueError)
  let reason ← optStrOk reasonRaw
  PassthroughAck.init device_id current_vm status reason

/-- `PassthroughAck.from_message`: `None` when the type tag differs,
else decode the payload (a non-dict payload raises `AttributeError`
inside `from_payload`'s `pl.get` calls). -/
def PassthroughAck.from_message (msg : List (String × Json)) :
    Except PyErr (Option PassthroughAck) :=
  if get_message_type msg = some (.str "passthrough_ack") then
    match (pyGet msg "payload").getD (.obj []) with
    | .obj pl => (PassthroughAck.from_payload pl).map some
    | _ => .error .attributeError
  else .ok none

/-- `DeviceConnected` instance state: `_data["device"]` dict fields. -/
structure DeviceConnected where
  device_id : String
  vendor : String
  product : String
  permitted_vms : List String
  current_vm : Option String
deriving DecidableEq, Repr

/-- `DeviceConnected.__init__` on typed arguments: `permitted_vms` is a
`list[str]` and `current_vm` a `str | None`, so their checks pass;
`_str_ok` validates `device_id`, `vendor`, `product` in that order. -/
def DeviceConnected.init (device_id vendor product : String)
    (permitted_vms : List String) (current_vm : Option String) :
    Except PyErr DeviceConnected :=
  if device_id = "" then .error .valueError
  else if vendor = "" then .error .valueError
  else if product = "" then .error .valueError
  else .ok ⟨device_id, vendor, product, permitted_vms, current_vm⟩

/-- The `_data["device"]` dict as stored by `__init__`. -/
def DeviceConnected.deviceDict (d : DeviceConnected) : List (String × Json) :=
  [("device_id", .str d.device_id), ("vendor", .str d.vendor),
   ("product", .str d.product),
   ("permitted_vms", .arr (d.permitted_vms.map .str)),
   ("current_vm", optStrJson d.current_vm)]

/-- `DeviceConnected.to_json`. -/
def DeviceConnected.to_json (d : DeviceConnected) : Json :=
  .obj [("type", .str "device_connected"), ("payload", .obj [("device",
    .obj (d.deviceDict))])]

/-- A JSON value accepted by `_is_list_of_str`. -/
def listOfStrOk (v : Json) : Except PyErr (List String) :=
  match v with
  | .arr xs =>
    (xs.mapM fun x => match x with
      | Json.str s => Except.ok s
      | _ => Except.error PyErr.valueError)
  | _ => .error .valueError

/-- `DeviceConnected.from_payload` (dpm.py lines 107-121). -/
def DeviceConnected.from_payload (pl : List (String × Json)) :
    Except PyErr DeviceConnected := do
  match pyGet pl "device" with
  | some (.obj dev) => do
    let device_id ← strOk (pyGet dev "device_id")
    let vendor ← strOk (pyGet dev "vendor")
    let product ← strOk (pyGet dev "product")
    let permittedRaw : Json :=
      match pyGet dev "permitted_vms" with
      | some v => v
      | none => (pyGet dev "permitted-vms").getD (.arr [])
    let cvmRaw : Option Json :=
      match pyGet dev "current_vm" with
      | some v => some v
      | none => pyGet dev "current-vm"
    let permitted ← listOfStrOk permittedRaw
    let current_vm ← optStrOk cvmRaw
    DeviceConnected.init device_id vendor product permitted current_vm
  | _ => .error .valueError

/-- `DeviceConnected.from_message`. -/
def DeviceConnected.from_message (msg : List (String × Json)) :
    Except PyErr (Option DeviceConnected) :=
  if get_message_type msg = some (.str "device_connected") then
    match (pyGet msg "payload").getD (.obj []) with
    | .obj pl => (DeviceConnected.from_payload pl).map some
    | _ => .error .attributeError
  else .ok none

/-- `DeviceRemoved`. -/
structure DeviceRemoved where
  device_id : String
deriving DecidableEq, Repr

/-- `DeviceRemoved.__init__`. -/
def DeviceRemoved.init (device_id : String) : Except PyErr DeviceRemoved :=
  if device_id = "" then .error .valueError else .ok ⟨device_id⟩

/-- `DeviceRemoved.to_json`. -/
def DeviceRemoved.to_json (d : DeviceRemoved) : Json :=
  .obj [("type", .str "device_removed"), ("payload", .obj
    [("device_id", .str d.device_id)])]

/-- `DeviceRemoved.from_message`. -/
def DeviceRemoved.from_message (msg : List (String × Json)) :
    Except PyErr (Option DeviceRemoved) :=
  if get_message_type msg = some (.str "device_removed") then
    match (pyGet msg "payload").getD (.obj []) with
    | .obj pl => (strOk (pyGet pl "device_id")).map fun s => some ⟨s⟩
    | _ => .error .attributeError
  else .ok none

/-- `GetDevices.to_json`. -/
def GetDevices.to_json : Json :=
  .obj [("type", .str "get_devices"), ("payload", .obj [])]

/-- `Reset.to_json` (the host's `reset` never calls it — see `reset`). -/
def Reset.to_json : Json :=
  .obj [("type", .str "reset"), ("payload", .obj [])]

/-- `PassthroughRequest`. -/
structure PassthroughRequest where
  device_id : String
  target_vm : String
deriving DecidableEq, Repr

/-- `PassthroughRequest.__init__`. -/
def PassthroughRequest.init (device_id target_vm : String) :
    Except PyErr PassthroughRequest :=
  if device_id = "" then .error .valueError
  else if target_vm = "" then .error .valueError
  else .ok ⟨device_id, target_vm⟩

/-- `PassthroughRequest.to_json`. -/
def PassthroughRequest.to_json (p : PassthroughRequest) : Json :=
  .obj [("type", .str "passthrough_request"), ("payload", .obj
    [("device_id", .str p.device_id), ("target_vm", .str p.target_vm)])]

/-- `PassthroughRequest.from_payload`. -/
def PassthroughRequest.from_payload (pl : List (String × Json)) :
    Except PyErr PassthroughRequest := do
  let device_id ← strOk (pyGet pl "device_id")
  let target_vm ← strOk (pyGet pl "target_vm")
  PassthroughRequest.init device_id target_vm

/-- `PassthroughRequest.from_message`. -/
def PassthroughRequest.from_message (msg : List (String × Json)) :
    Except PyErr (Option PassthroughRequest) :=
  if get_message_type msg = some (.str "passthrough_request") then
    match (pyGet msg "payload").getD (.obj []) with
    | .obj pl => (PassthroughRequest.from_payload pl).map some
    | _ => .error .attributeError
  else .ok none

/-- Host registry entry: the dict stored by
`HostService.notify_device_connected` under keys `device_id`, `vendor`,
`product`, `permitted-vms`, `current-vm` (hyphenated keys on the host). -/
structure HostEntry where
  device_id : String
  vendor : String
  product : String
  permitted_vms : List String
  current_vm : String
deriving DecidableEq, Repr

/-- Clean snapshot entry built by `ConnectedDevices.__init__`. -/
structure CleanEntry where
  vendor : String
  product : String
  permitted_vms : List String
  current_vm : Option String
deriving DecidableEq, Repr

/-- `ConnectedDevices.__init__` applied to the host registry dict:
reads `vendor`/`product` (`_str_ok`), `permitted_vms` falling back to
`permitted-vms`, `current_vm` falling back to `current-vm` (here a
plain `str`, so its check passes), entry by entry in dict order. -/
def ConnectedDevices.init (devices : List (String × HostEntry)) :
    Except PyErr (List (String × CleanEntry)) :=
  devices.mapM fun p =>
    if p.2.vendor = "" then Except.error PyErr.valueError
    else if p.2.product = "" then Except.error PyErr.valueError
    else Except.ok (p.1,
      ⟨p.2.vendor, p.2.product, p.2.permitted_vms, some p.2.current_vm⟩)

/-- `ConnectedDevices.to_json`. -/
def ConnectedDevices.to_json (clean : List (String × CleanEntry)) : Json :=
  .obj [("type", .str "connected_devices"), ("payload", .obj [("devices",
    .obj (clean.map fun p => (p.1, Json.obj
      [("vendor", .str p.2.vendor), ("product", .str p.2.product),
       ("permitted_vms", .arr (p.2.permitted_vms.map .str)),
       ("current_vm", optStrJson p.2.current_vm)])))])]

/-- The clean entry as the plain dict the guest stores after a
snapshot (`connected_devices.devices` values). -/
def CleanEntry.dict (e : CleanEntry) : List (String × Json) :=
  [("vendor", .str e.vendor), ("product", .str e.product),
   ("permitted_vms", .arr (e.permitted_vms.map .str)),
   ("current_vm", optStrJson e.current_vm)]

/-- `ConnectedDevices.__init__` on an untrusted JSON `devices` dict
(the path taken by `from_payload` on the guest). -/
def ConnectedDevices.initRaw (raw : List (String × Json)) :
    Except PyErr (List (String × CleanEntry)) :=
  raw.mapM fun p => do
    match p.2 with
    | .obj info => do
      let vendor ← strOk (pyGet info "vendor")
      let product ← strOk (pyGet info "product")
      let permittedRaw : Json :=
        match pyGet info "permitted_vms" with
        | some v => v
        | none => (pyGet info "permitted-vms").getD (.arr [])
      let cvmRaw : Option Json :=
        match pyGet info "current_vm" with
        | some v => some v
        | none => pyGet info "current-vm"
      let permitted ← listOfStrOk permittedRaw
      let current_vm ← optStrOk cvmRaw
      pure (p.1, CleanEntry.mk vendor product permitted current_vm)
    | _ => Except.error PyErr.valueError

/-- `ConnectedDevices.from_message`. -/
def ConnectedDevices.from_message (msg : List (String × Json)) :
    Except PyErr (Option (List (String × CleanEntry))) :=
  if get_message_type msg = some (.str "connected_devices") then
    match (pyGet msg "payload").getD (.obj []) with
    | .obj pl =>
      match pyGet pl "devices" with
      | some (.obj raw) => (ConnectedDevices.initRaw raw).map some
      | _ => .error .valueError
    | _ => .error .attributeError
  else .ok none

/-! ## Reconnecting client send

Embeds `VsockClient.send` (vsock.py lines 226-235): a `for _ in
range(5)` loop; each iteration serializes and writes, and any exception
closes the presumed-dead connection (forcing the next attempt to
reconnect) and retries; after the fifth failure it returns `False`. -/

/-- What `send` is given at a call site: every call but one passes a
JSON dict from `.to_json()`; `HostService.reset` passes the
`dpm.Reset()` object itself, which `json.dumps` cannot serialize. -/
inductive SendArg where
  | json (j : Json) : SendArg
  | pyObj : SendArg
deriving DecidableEq, Repr

/-- The retry loop over socket writes: `writeOk i` is whether the i-th
write performed would succeed.  Returns (success, writes performed). -/
def sendAttempts (writeOk : Nat → Bool) : Nat → Nat → Bool × Nat
  | 0, _ => (false, 0)
  | n + 1, i =>
    if writeOk i then (true, 1)
    else
      let p := sendAttempts writeOk n (i + 1)
      (p.1, p.2 + 1)

/-- `VsockClient.send(data)`: result, number of socket writes
performed, and the frames successfully written.  A non-serializable
argument makes `json.dumps` raise `TypeError` before any write on each
of the 5 attempts, so no write ever happens and `send` returns
`False`. -/
def clientSend (writeOk : Nat → Bool) (arg : SendArg) : Bool × Nat × List Json :=
  match arg with
  | .pyObj => (false, 0, [])
  | .json j =>
    let p := sendAttempts writeOk 5 0
    (p.1, p.2, if p.1 then [j] else [])

/-- An always-healthy transport: every write succeeds. -/
def writesOk : Nat → Bool := fun _ => true

/-! ## Host service

Embeds `upm/host/service.py`.  Each operation returns its Python result
(`Except` capturing uncaught exceptions), the registry state after the
call (in-place mutations survive a later exception), and the frames
sent to the GUI VM, in order. -/

/-- The mutable state of a `HostService`: its device registry. -/
structure HostState where
  device_registry : List (String × HostEntry)
deriving DecidableEq, Repr

/-- Update `registry[device_id]["current-vm"]` in place. -/
def regSetCurrent (r : List (String × HostEntry)) (k vm : String) :
    List (String × HostEntry) :=
  r.map fun p => if p.1 = k then (p.1, { p.2 with current_vm := vm }) else p

/-- `HostService.notify_device_connected` (service.py lines 60-89):
under the lock, insert unless present (a duplicate is ignored with
success); outside the lock, build the validated `DeviceConnected`
message and send it. -/
def notify_device_connected (h : HostState) (device_id vendor product : String)
    (permitted_vms : List String) (current_vm : String) (writeOk : Nat → Bool) :
    Except PyErr Bool × HostState × List Json :=
  match pyGet h.device_registry device_id with
  | some _ => (.ok true, h, [])
  | none =>
    let h2 : HostState := ⟨dictSet h.device_registry device_id
      ⟨device_id, vendor, product, permitted_vms, current_vm⟩⟩
    match DeviceConnected.init device_id vendor product permitted_vms
        (some current_vm) with
    | .error e => (.error e, h2, [])
    | .ok msg =>
      let s := clientSend writeOk (.json msg.to_json)
      (.ok s.1, h2, s.2.2)

/-- `HostService.reset` (service.py lines 91-98): clear the registry
under the lock, then `self.gui_vm.send(reset_msg)` where `reset_msg` is
the `dpm.Reset()` OBJECT — not `reset_msg.to_json()` — so `json.dumps`
raises `TypeError` on every attempt and `send` returns `False`. -/
def reset (h : HostState) (writeOk : Nat → Bool) :
    Except PyErr Bool × HostState × List Json :=
  let _ := h
  let s := clientSend writeOk .pyObj
  (.ok s.1, ⟨[]⟩, s.2.2)

/-- `HostService.notify_device_disconnected` (service.py lines 100-114). -/
def notify_device_disconnected (h : HostState) (device_id : String)
    (writeOk : Nat → Bool) : Except PyErr Bool × HostState × List Json :=
  match pyGet h.device_registry device_id with
  | none => (.ok false, h, [])
  | some _ =>
    let h2 : HostState := ⟨dictDel h.device_registry device_id⟩
    match DeviceRemoved.init device_id with
    | .error e => (.error e, h2, [])
    | .ok msg =>
      let s := clientSend writeOk (.json msg.to_json)
      (.ok s.1, h2, s.2.2)

/-- `HostService.notify_device_passthrough` (service.py lines 116-138):
under the lock, reject an unknown device with `False`, reject a
non-permitted VM with `False`, treat `new_vm == current-vm` as an early
`True` (no send), else update `current-vm`; outside the lock, construct
`PassthroughAck(device_id, new_vm, "ok")` and send `.to_json()` — whose
`self.reason` access raises `AttributeError` (see
`PassthroughAck.to_json`), after the registry was already updated. -/
def notify_device_passthrough (h : HostState) (device_id new_vm : String)
    (writeOk : Nat → Bool) : Except PyErr Bool × HostState × List Json :=
  match pyGet h.device_registry device_id with
  | none => (.ok false, h, [])
  | some entry =>
    if new_vm ∈ entry.permitted_vms then
      if new_vm ≠ entry.current_vm then
        let h2 : HostState := ⟨regSetCurrent h.device_registry device_id new_vm⟩
        match PassthroughAck.init device_id (some new_vm) "ok" none with
        | .error e => (.error e, h2, [])
        | .ok ack =>
          match ack.to_json with
          | .error e => (.error e, h2, [])
          | .ok j =>
            let s := clientSend writeOk (.json j)
            (.ok s.1, h2, s.2.2)
      else (.ok true, h, [])
    else (.ok false, h, [])

/-- `HostService.handle_request` (service.py lines 140-165): dispatch
on the type tag; `get_devices` answers with a full snapshot;
`passthrough_request` decodes the request, then — for a registered
device — invokes the external passthrough-execution collaborator
BEFORE any permission or no-op check, and only on its success calls
`notify_device_passthrough`; failures are logged, no ack is sent for
them.  Returns (outcome, state, frames sent, collaborator invocations
as (device_id, target_vm) pairs). -/
def handle_request (h : HostState) (ptHandler : String → String → Bool)
    (writeOk : Nat → Bool) (msg : List (String × Json)) :
    Except PyErr Unit × HostState × List Json × List (String × String) :=
  let msgtype := get_message_type msg
  if msgtype = some (.str "get_devices") then
    match ConnectedDevices.init h.device_registry with
    | .error e => (.error e, h, [], [])
    | .ok clean =>
      let s := clientSend writeOk (.json (ConnectedDevices.to_json clean))
      (.ok (), h, s.2.2, [])
  else if msgtype = some (.str "passthrough_request") then
    match PassthroughRequest.from_message msg with
    | .error e => (.error e, h, [], [])
    | .ok none => (.error .attributeError, h, [], [])
    | .ok (some pr) =>
      match pyGet h.device_registry pr.device_id with
      | some _ =>
        if ptHandler pr.device_id pr.target_vm then
          let r := notify_device_passthrough h pr.device_id pr.target_vm writeOk
          match r.1 with
          | .error e => (.error e, r.2.1, r.2.2, [(pr.device_id, pr.target_vm)])
          | .ok _ => (.ok (), r.2.1, r.2.2, [(pr.device_id, pr.target_vm)])
        else (.ok (), h, [], [(pr.device_id, pr.target_vm)])
      | none => (.ok (), h, [], [])
  else (.ok (), h, [], [])

/-! ## Guest mirror registry

Embeds `DeviceRegister.on_msg` (upm/guest/device_registry.py lines
113-161).  The guest registry maps device ids to plain dicts; the
atomic registry-file write and the notification popup are external
collaborators and are not part of the state. -/

/-- The mutable state of a `DeviceRegister`: its mirror registry. -/
structure GuestState where
  device_registry : List (String × List (String × Json))
deriving DecidableEq, Repr

/-- `DeviceRegister.on_msg`. -/
def guest_on_msg (g : GuestState) (msg : List (String × Json)) :
    Except PyErr Unit × GuestState :=
  let msgtype := get_message_type msg
  if msgtype = some (.str "device_connected") then
    match DeviceConnected.from_message msg with
    | .error e => (.error e, g)
    | .ok none => (.error .attributeError, g)
    | .ok (some d) =>
      -- unconditional overwrite: `self.device_registry[dev.device_id] = dev.device`
      (.ok (), ⟨dictSet g.device_registry d.device_id d.deviceDict⟩)
  else if msgtype = some (.str "device_removed") then
    match DeviceRemoved.from_message msg with
    | .error e => (.error e, g)
    | .ok none => (.error .attributeError, g)
    | .ok (some d) =>
      match pyGet g.device_registry d.device_id with
      | some _ => (.ok (), ⟨dictDel g.device_registry d.device_id⟩)
      | none => (.ok (), g)
  else if msgtype = some (.str "connected_devices") then
    match ConnectedDevices.from_message msg with
    | .error e => (.error e, g)
    | .ok none => (.error .attributeError, g)
    | .ok (some clean) =>
      (.ok (), ⟨clean.map fun p => (p.1, p.2.dict)⟩)
  else if msgtype = some (.str "passthrough_ack") then
    match PassthroughAck.from_message msg with
    | .error e => (.error e, g)
    | .ok none => (.error .attributeError, g)
    | .ok (some ack) =>
      if ack.status = "ok" then
        match pyGet g.device_registry ack.device_id with
        | none => (.error .keyError, g)
        | some entry =>
          (.ok (), ⟨dictSet g.device_registry ack.device_id
            (dictSet entry "current_vm" (optStrJson ack.current_vm))⟩)
      else (.ok (), g)
  else if msgtype = some (.str "reset") then
    (.ok (), ⟨[]⟩)
  else (.ok (), g)

/-! ## Claim theorems -/

theorem sendBytes_ne_nil (v : Json) : sendBytes v ≠ [] := by
  simp [sendBytes]

/-- C6: for every JSON envelope `e`, encoding with the codec's `send`
(compact JSON plus a single trailing newline) and decoding the
resulting byte stream with `receive` yields exactly `e` back, and
`json.loads` inverts `json.dumps` on the document itself. -/
theorem codec_round_trip (e : Json) :
    receive [sendBytes e] = ([e], false) ∧ parseJson (serJson e) = some e := by
  constructor
  · exact receive_encoded [e] [sendBytes e] (by simp)
      (by
        intro c hc
        rw [List.mem_singleton] at hc
        rw [hc]
        exact sendBytes_ne_nil e)
  · exact parseJson_serJson e

/-- C7: feeding the concatenation of any number of encoded envelopes to
`receive` in arbitrary (nonempty) chunks — including chunk boundaries
in the middle of a line — yields exactly the original envelopes, in
order, with no decode error. -/
theorem chunking_independence (msgs : List Json) (chunks : List (List Char))
    (hjoin : chunks.flatten = (msgs.map sendBytes).flatten)
    (hne : ∀ c ∈ chunks, c ≠ []) :
    receive chunks = (msgs, false) :=
  receive_encoded msgs chunks hjoin hne

/-- Witness for C7: two envelopes, three chunks, both line boundaries
crossed mid-chunk. -/
theorem chunking_independence_witness :
    receive [['\x7b', '"', 't', 'y'],
      ['p', 'e', '"', ':', '"', 'r', 'e', 's', 'e', 't', '"', ',', '"', 'p', 'a',
       'y', 'l', 'o', 'a', 'd', '"', ':', '\x7b', '\x7d', '\x7d', '\n', 'n', 'u'],
      ['l', 'l', '\n']] =
      ([Json.obj [("type", .str "reset"), ("payload", .obj [])], Json.null],
        false) :=
  chunking_independence
    [Json.obj [("type", .str "reset"), ("payload", .obj [])], Json.null]
    [['\x7b', '"', 't', 'y'],
     ['p', 'e', '"', ':', '"', 'r', 'e', 's', 'e', 't', '"', ',', '"', 'p', 'a',
      'y', 'l', 'o', 'a', 'd', '"', ':', '\x7b', '\x7d', '\x7d', '\n', 'n', 'u'],
     ['l', 'l', '\n']]
    (by decide) (by decide)

/-- C10: bytes after the last newline of the stream are silently
discarded when the stream ends: appending a final newline-free chunk
changes nothing about what `receive` yields. -/
theorem trailing_bytes_discarded (cs : List (List Char)) (t : List Char)
    (ht : '\n' ∉ t) :
    receive (cs ++ [t]) = receive cs := by
  rw [receive, receive, recvLines_drop_tail cs [] t ht (by simp)]

/-- Witness for C10: a complete JSON document with no trailing newline
is discarded and decodes to nothing. -/
theorem trailing_bytes_discarded_witness :
    receive [sendBytes Json.null ++ [],
        ['\x7b', '"', 'a', '"', ':', '1', '\x7d']] =
      receive [sendBytes Json.null ++ []] := by
  have h := trailing_bytes_discarded [sendBytes Json.null ++ []]
    ['\x7b', '"', 'a', '"', ':', '1', '\x7d'] (by decide)
  simpa using h

/-- C8: `VsockClient.send` performs at most 5 socket writes: if the
first 5 writes all fail it returns failure after exactly 5 writes (no
6th attempt), and if any of the first 5 writes succeeds it returns
success. -/
theorem client_send_bounded_retries (writeOk : Nat → Bool) (j : Json) :
    ((∀ i, i < 5 → writeOk i = false) →
      clientSend writeOk (.json j) = (false, 5, [])) ∧
    ((∃ i, i < 5 ∧ writeOk i = true) → (clientSend writeOk (.json j)).1 = true) ∧
    (clientSend writeOk (.json j)).2.1 ≤ 5 := by
  have hall : ∀ (n i : Nat), (∀ k, k < n → writeOk (i + k) = false) →
      sendAttempts writeOk n i = (false, n) := by
    intro n
    induction n with
    | zero => intro i _; rfl
    | succ m ihm =>
      intro i hfail
      have h0 : writeOk i = false := by simpa using hfail 0 (by omega)
      simp only [sendAttempts, h0, Bool.false_eq_true, if_false]
      rw [ihm (i + 1) (fun k hk => by
        have := hfail (k + 1) (by omega)
        simpa [Nat.add_assoc, Nat.add_comm 1 k] using this)]
  have hsucc : ∀ (n i : Nat), (∃ k, k < n ∧ writeOk (i + k) = true) →
      (sendAttempts writeOk n i).1 = true := by
    intro n
    induction n with
    | zero => intro i ⟨k, hk, _⟩; omega
    | succ m ihm =>
      intro i ⟨k, hk, hko⟩
      by_cases h0 : writeOk i = true
      · simp [sendAttempts, h0]
      · have hne0 : k ≠ 0 := by
          intro hz
          rw [hz] at hko
          simp at hko
          exact absurd hko (by simpa using h0)
        simp only [sendAttempts, h0, Bool.false_eq_true, if_false]
        exact ihm (i + 1) ⟨k - 1, by omega, by
          have : i + 1 + (k - 1) = i + k := by omega
          rw [this]
          exact hko⟩
  have hle : ∀ (n i : Nat), (sendAttempts writeOk n i).2 ≤ n := by
    intro n
    induction n with
    | zero => intro i; simp [sendAttempts]
    | succ m ihm =>
      intro i
      by_cases h0 : writeOk i = true
      · simp [sendAttempts, h0]
      · simp only [sendAttempts, h0, Bool.false_eq_true, if_false]
        have := ihm (i + 1)
        omega
  refine ⟨?_, ?_, ?_⟩
  · intro hfail
    simp only [clientSend]
    rw [hall 5 0 (fun k hk => by simpa using hfail k hk)]
    simp
  · intro ⟨i, hi, hio⟩
    simp only [clientSend]
    rw [hsucc 5 0 ⟨i, hi, by simpa using hio⟩]
  · simp only [clientSend]
    exact hle 5 0

/-- Witness for C8: a dead transport gets exactly 5 write attempts and
returns failure; a transport healing on the fourth write succeeds. -/
theorem client_send_bounded_retries_witness :
    clientSend (fun _ => false) (.json .null) = (false, 5, []) ∧
    (clientSend (fun i => i == 3) (.json .null)).1 = true :=
  ⟨(client_send_bounded_retries (fun _ => false) .null).1 (by decide),
   (client_send_bounded_retries (fun i => i == 3) .null).2.1 ⟨3, by decide, rfl⟩⟩

/-- The decoded `PassthroughRequest(device_id, target_vm).to_json()`
envelope, as `handle_request` receives it from the codec. -/
def ptReqMsg (d t : String) : List (String × Json) :=
  [("type", .str "passthrough_request"),
   ("payload", .obj [("device_id", .str d), ("target_vm", .str t)])]

/-- The decoded `GetDevices().to_json()` envelope. -/
def getDevicesMsg : List (String × Json) :=
  [("type", .str "get_devices"), ("payload", .obj [])]

/-- The decoded `DeviceConnected(...).to_json()` envelope. -/
def dcMsg (d : DeviceConnected) : List (String × Json) :=
  [("type", .str "device_connected"),
   ("payload", .obj [("device", .obj d.deviceDict)])]

theorem ptReq_from_message (d t : String) (hd : d ≠ "") (ht : t ≠ "") :
    PassthroughRequest.from_message (ptReqMsg d t) = .ok (some ⟨d, t⟩) := by
  simp [PassthroughRequest.from_message, ptReqMsg, get_message_type, pyGet,
    PassthroughRequest.from_payload, strOk, hd, ht, PassthroughRequest.init,
    Except.map, Except.bind, bind]

/-- C1: a passthrough request for a registered device whose target VM
is permitted and differs from the current VM, with the execution
collaborator succeeding and a healthy transport: the registry entry IS
updated to the target VM, but NO passthrough_ack is emitted —
`PassthroughAck.to_json` raises `AttributeError` (its `__init__` never
stores the `reason` it validates), and the exception propagates out of
`handle_request`, so the frame list stays empty. -/
theorem passthrough_success_no_ack (h : HostState) (entry : HostEntry)
    (dvc tvm : String) (hreg : pyGet h.device_registry dvc = some entry)
    (hperm : tvm ∈ entry.permitted_vms) (hne : tvm ≠ entry.current_vm)
    (hd : dvc ≠ "") (ht : tvm ≠ "") :
    handle_request h (fun _ _ => true) writesOk (ptReqMsg dvc tvm) =
      (.error .attributeError, ⟨regSetCurrent h.device_registry dvc tvm⟩, [],
        [(dvc, tvm)]) := by
  have hnot : notify_device_passthrough h dvc tvm writesOk =
      (.error .attributeError, ⟨regSetCurrent h.device_registry dvc tvm⟩, []) := by
    simp [notify_device_passthrough, hreg, hperm, hne, PassthroughAck.init, hd,
      PassthroughAck.to_json, PassthroughAck.reasonAttr, Except.bind, bind]
  have hpr := ptReq_from_message dvc tvm hd ht
  simp only [ptReqMsg] at hpr
  simp [handle_request, ptReqMsg, get_message_type, pyGet, hpr, hreg, hnot]

/-- Witness for C1. -/
theorem passthrough_success_no_ack_witness :
    handle_request ⟨[("d1", ⟨"d1", "vend", "prod", ["vm-a", "vm-b"], "vm-a"⟩)]⟩
        (fun _ _ => true) writesOk (ptReqMsg "d1" "vm-b") =
      (.error .attributeError,
        ⟨regSetCurrent [("d1", ⟨"d1", "vend", "prod", ["vm-a", "vm-b"], "vm-a"⟩)]
          "d1" "vm-b"⟩,
        [], [("d1", "vm-b")]) :=
  passthrough_success_no_ack
    ⟨[("d1", ⟨"d1", "vend", "prod", ["vm-a", "vm-b"], "vm-a"⟩)]⟩
    ⟨"d1", "vend", "prod", ["vm-a", "vm-b"], "vm-a"⟩ "d1" "vm-b"
    (by decide) (by decide) (by decide) (by decide) (by decide)

/-- C2 counterexample: device `d1` permits `vm-a`/`vm-b` with current
`vm-a`; requesting `vm-c` leaves the registry unchanged but the frame
list is EMPTY — the host sends no passthrough_ack at all, in
particular none with status "denied", contradicting the claimed denied
reply (it only logs; the collaborator was even invoked first). -/
theorem passthrough_denied_counterexample :
    handle_request ⟨[("d1", ⟨"d1", "vend", "prod", ["vm-a", "vm-b"], "vm-a"⟩)]⟩
        (fun _ _ => true) writesOk (ptReqMsg "d1" "vm-c") =
      (.ok (), ⟨[("d1", ⟨"d1", "vend", "prod", ["vm-a", "vm-b"], "vm-a"⟩)]⟩, [],
        [("d1", "vm-c")]) := by
  rfl

/-- C2 amended: a passthrough request whose target VM is not permitted
leaves the registry unchanged and the host sends NO reply (no frame at
all): `notify_device_passthrough` returns False and `handle_request`
only logs an error. -/
theorem passthrough_denied_amended (h : HostState) (entry : HostEntry)
    (dvc tvm : String) (handler : String → String → Bool)
    (hreg : pyGet h.device_registry dvc = some entry)
    (hnp : tvm ∉ entry.permitted_vms) (hd : dvc ≠ "") (ht : tvm ≠ "") :
    (handle_request h handler writesOk (ptReqMsg dvc tvm)).1 = .ok () ∧
    (handle_request h handler writesOk (ptReqMsg dvc tvm)).2.1 = h ∧
    (handle_request h handler writesOk (ptReqMsg dvc tvm)).2.2.1 = [] := by
  have hnot : notify_device_passthrough h dvc tvm writesOk = (.ok false, h, []) := by
    simp [notify_device_passthrough, hreg, hnp]
  have hpr := ptReq_from_message dvc tvm hd ht
  simp only [ptReqMsg] at hpr
  by_cases hh : handler dvc tvm
  · refine ⟨?_, ?_, ?_⟩ <;>
      simp [handle_request, ptReqMsg, get_message_type, pyGet, hpr, hreg, hh, hnot]
  · refine ⟨?_, ?_, ?_⟩ <;>
      simp [handle_request, ptReqMsg, get_message_type, pyGet, hpr, hreg, hh]

/-- Witness for C2 amended. -/
theorem passthrough_denied_amended_witness :
    (handle_request ⟨[("d1", ⟨"d1", "vend", "prod", ["vm-a", "vm-b"], "vm-a"⟩)]⟩
        (fun _ _ => true) writesOk (ptReqMsg "d1" "vm-c")).2.1 =
      ⟨[("d1", ⟨"d1", "vend", "prod", ["vm-a", "vm-b"], "vm-a"⟩)]⟩ ∧
    (handle_request ⟨[("d1", ⟨"d1", "vend", "prod", ["vm-a", "vm-b"], "vm-a"⟩)]⟩
        (fun _ _ => true) writesOk (ptReqMsg "d1" "vm-c")).2.2.1 = [] :=
  ⟨(passthrough_denied_amended
      ⟨[("d1", ⟨"d1", "vend", "prod", ["vm-a", "vm-b"], "vm-a"⟩)]⟩
      ⟨"d1", "vend", "prod", ["vm-a", "vm-b"], "vm-a"⟩ "d1" "vm-c" (fun _ _ => true)
      (by decide) (by decide) (by decide) (by decide)).2.1,
   (passthrough_denied_amended
      ⟨[("d1", ⟨"d1", "vend", "prod", ["vm-a", "vm-b"], "vm-a"⟩)]⟩
      ⟨"d1", "vend", "prod", ["vm-a", "vm-b"], "vm-a"⟩ "d1" "vm-c" (fun _ _ => true)
      (by decide) (by decide) (by decide) (by decide)).2.2⟩

/-- C3 counterexample: a no-op reassignment (`target_vm` equal to the
current VM) DOES invoke the external execution collaborator — once,
before the no-op check — contradicting "the collaborator is never
invoked for that request". -/
theorem noop_invokes_collaborator_counterexample :
    (handle_request ⟨[("d1", ⟨"d1", "vend", "prod", ["vm-a", "vm-b"], "vm-a"⟩)]⟩
        (fun _ _ => true) writesOk (ptReqMsg "d1" "vm-a")).2.2.2 =
      [("d1", "vm-a")] ∧
    [("d1", "vm-a")] ≠ ([] : List (String × String)) :=
  ⟨rfl, by decide⟩

/-- C3 amended: a no-op reassignment (registered device, target equal
to current, collaborator succeeding) leaves the registry unchanged and
completes as a success with no frame sent, but the external execution
collaborator IS invoked once for the request, before the no-op check. -/
theorem noop_reassignment_amended (h : HostState) (entry : HostEntry)
    (dvc tvm : String) (hreg : pyGet h.device_registry dvc = some entry)
    (hperm : tvm ∈ entry.permitted_vms) (hcur : tvm = entry.current_vm)
    (hd : dvc ≠ "") (ht : tvm ≠ "") :
    handle_request h (fun _ _ => true) writesOk (ptReqMsg dvc tvm) =
      (.ok (), h, [], [(dvc, tvm)]) := by
  have hnot : notify_device_passthrough h dvc tvm writesOk = (.ok true, h, []) := by
    have hperm2 : entry.current_vm ∈ entry.permitted_vms := hcur ▸ hperm
    simp [notify_device_passthrough, hreg, hperm2, hcur]
  have hpr := ptReq_from_message dvc tvm hd ht
  simp only [ptReqMsg] at hpr
  simp [handle_request, ptReqMsg, get_message_type, pyGet, hpr, hreg, hnot]

/-- Witness for C3 amended. -/
theorem noop_reassignment_amended_witness :
    handle_request ⟨[("d1", ⟨"d1", "vend", "prod", ["vm-a", "vm-b"], "vm-a"⟩)]⟩
        (fun _ _ => true) writesOk (ptReqMsg "d1" "vm-a") =
      (.ok (), ⟨[("d1", ⟨"d1", "vend", "prod", ["vm-a", "vm-b"], "vm-a"⟩)]⟩, [],
        [("d1", "vm-a")]) :=
  noop_reassignment_amended
    ⟨[("d1", ⟨"d1", "vend", "prod", ["vm-a", "vm-b"], "vm-a"⟩)]⟩
    ⟨"d1", "vend", "prod", ["vm-a", "vm-b"], "vm-a"⟩ "d1" "vm-a"
    (by decide) (by decide) (by decide) (by decide) (by decide)

/-- C4: `reset` clears every entry from the registry, after which a
`get_devices` request is answered with an empty device mapping — but
it FAILS to emit the reset message: `send` is handed the `dpm.Reset()`
object instead of `reset_msg.to_json()`, `json.dumps` raises
`TypeError` on each of the five attempts, nothing is written for any
transport behavior, and `reset` returns False. -/
theorem reset_clears_but_emits_nothing (h : HostState) (writeOk : Nat → Bool)
    (handler : String → String → Bool) :
    reset h writeOk = (.ok false, ⟨[]⟩, []) ∧
    handle_request ⟨[]⟩ handler writesOk getDevicesMsg =
      (.ok (), ⟨[]⟩, [Json.obj [("type", .str "connected_devices"),
        ("payload", .obj [("devices", .obj [])])]], []) := by
  exact ⟨rfl, rfl⟩

theorem listOfStrOk_map (l : List String) :
    listOfStrOk (.arr (l.map .str)) = .ok l := by
  simp only [listOfStrOk]
  induction l with
  | nil => rfl
  | cons x t ih =>
    simp only [List.map_cons, List.mapM_cons, ih]
    rfl

theorem optStrOk_optStrJson (o : Option String) :
    optStrOk (some (optStrJson o)) = .ok o := by
  cases o <;> rfl

theorem dc_from_message_dcMsg (d : DeviceConnected)
    (h1 : d.device_id ≠ "") (h2 : d.vendor ≠ "") (h3 : d.product ≠ "") :
    DeviceConnected.from_message (dcMsg d) = .ok (some d) := by
  simp [DeviceConnected.from_message, dcMsg, get_message_type, pyGet,
    DeviceConnected.from_payload, DeviceConnected.deviceDict, strOk, h1, h2, h3,
    listOfStrOk_map, optStrOk_optStrJson, DeviceConnected.init, Except.map,
    Except.bind, bind]

/-- C5 counterexample: on the guest mirror, a second `device_connected`
for an already-present `device_id` does NOT leave the registry with one
entry equal to the first: `on_msg` overwrites unconditionally, so the
final entry equals the second message's device dict, which differs from
the first (different vendor). -/
theorem duplicate_connect_counterexample :
    (guest_on_msg
        (guest_on_msg ⟨[]⟩
          (dcMsg ⟨"d1", "v1", "p1", ["vm-a"], some "vm-a"⟩)).2
        (dcMsg ⟨"d1", "v2", "p1", ["vm-a"], some "vm-a"⟩)).2 =
      ⟨[("d1", DeviceConnected.deviceDict ⟨"d1", "v2", "p1", ["vm-a"], some "vm-a"⟩)]⟩ ∧
    DeviceConnected.deviceDict ⟨"d1", "v2", "p1", ["vm-a"], some "vm-a"⟩ ≠
      DeviceConnected.deviceDict ⟨"d1", "v1", "p1", ["vm-a"], some "vm-a"⟩ :=
  ⟨rfl, by decide⟩

/-- C5 amended: on the authoritative host registry a second
`device_connected` for a present `device_id` leaves the registry
unchanged and reports success (and sends nothing); the guest-side
mirror instead overwrites the entry with the second message's device
fields, so it keeps one entry equal to the LATEST message (equal to the
first only when the two messages carry identical fields). -/
theorem duplicate_connect_amended :
    (∀ (h : HostState) (entry : HostEntry) (did vendor product : String)
        (pvms : List String) (cvm : String) (writeOk : Nat → Bool),
        pyGet h.device_registry did = some entry →
        notify_device_connected h did vendor product pvms cvm writeOk =
          (.ok true, h, [])) ∧
    (∀ (g : GuestState) (d : DeviceConnected),
        d.device_id ≠ "" → d.vendor ≠ "" → d.product ≠ "" →
        guest_on_msg g (dcMsg d) =
          (.ok (), ⟨dictSet g.device_registry d.device_id d.deviceDict⟩)) := by
  constructor
  · intro h entry did vendor product pvms cvm writeOk hreg
    simp [notify_device_connected, hreg]
  · intro g d h1 h2 h3
    have hdc := dc_from_message_dcMsg d h1 h2 h3
    simp only [dcMsg] at hdc
    simp [guest_on_msg, dcMsg, get_message_type, pyGet, hdc]

/-- Witness for C5 amended. -/
theorem duplicate_connect_amended_witness :
    notify_device_connected
        ⟨[("d1", ⟨"d1", "v1", "p1", ["vm-a"], "vm-a"⟩)]⟩ "d1" "v2" "p2" ["vm-b"]
        "vm-b" writesOk =
      (.ok true, ⟨[("d1", ⟨"d1", "v1", "p1", ["vm-a"], "vm-a"⟩)]⟩, []) ∧
    guest_on_msg ⟨[("d1", DeviceConnected.deviceDict
          ⟨"d1", "v1", "p1", ["vm-a"], some "vm-a"⟩)]⟩
        (dcMsg ⟨"d1", "v2", "p1", ["vm-a"], some "vm-a"⟩) =
      (.ok (), ⟨dictSet
        [("d1", DeviceConnected.deviceDict ⟨"d1", "v1", "p1", ["vm-a"], some "vm-a"⟩)]
        "d1" (DeviceConnected.deviceDict ⟨"d1", "v2", "p1", ["vm-a"], some "vm-a"⟩)⟩) :=
  ⟨duplicate_connect_amended.1
      ⟨[("d1", ⟨"d1", "v1", "p1", ["vm-a"], "vm-a"⟩)]⟩
      ⟨"d1", "v1", "p1", ["vm-a"], "vm-a"⟩ "d1" "v2" "p2" ["vm-b"] "vm-b" writesOk
      (by decide),
   duplicate_connect_amended.2
      ⟨[("d1", DeviceConnected.deviceDict ⟨"d1", "v1", "p1", ["vm-a"], some "vm-a"⟩)]⟩
      ⟨"d1", "v2", "p1", ["vm-a"], some "vm-a"⟩
      (by decide) (by decide) (by decide)⟩

theorem strOk_ok_ne (x : Option Json) (s : String) (h : strOk x = .ok s) :
    s ≠ "" := by
  match x with
  | some (.str s2) =>
    by_cases hs : s2 = ""
    · simp [strOk, hs] at h
    · simp [strOk, hs] at h
      rw [← h]
      exact hs
  | some .null | some (.bool _) | some (.num _) | some (.arr _) | some (.obj _) =>
    simp [strOk] at h
  | none => simp [strOk] at h

/-- C9 counterexample: a passthrough_ack payload with a valid
`device_id` and NO `status` field fails decoding (its `current_vm` is a
list): decoding does not succeed with status "ok", and a failure occurs
although no status is present — contradicting both halves of the
claim. -/
theorem ack_decode_counterexample :
    PassthroughAck.from_payload
        [("device_id", .str "d"), ("current_vm", .arr [])] =
      .error .valueError ∧
    pyGet [("device_id", Json.str "d"), ("current_vm", Json.arr [])] "status" =
      none :=
  ⟨rfl, rfl⟩

/-- C9 amended: when the payload carries a valid `device_id`, omits
`status`, and its optional `current_vm`/`reason` fields are themselves
valid (absent, null or strings), decoding succeeds and the status
defaults to "ok"; a present `status` outside {ok, denied, error} fails
decoding (given the fields read before it are valid). -/
theorem ack_status_default_amended :
    (∀ (pl : List (String × Json)) (dvc : String) (cv rs : Option String),
        strOk (pyGet pl "device_id") = .ok dvc →
        pyGet pl "status" = none →
        optStrOk (match pyGet pl "current_vm" with
          | some v => some v
          | none => pyGet pl "current-vm") = .ok cv →
        optStrOk (pyGet pl "reason") = .ok rs →
        PassthroughAck.from_payload pl = .ok ⟨dvc, cv, "ok"⟩) ∧
    (∀ (pl : List (String × Json)) (dvc : String) (cv : Option String) (sj : Json),
        strOk (pyGet pl "device_id") = .ok dvc →
        optStrOk (match pyGet pl "current_vm" with
          | some v => some v
          | none => pyGet pl "current-vm") = .ok cv →
        pyGet pl "status" = some sj →
        sj ≠ .str "ok" → sj ≠ .str "denied" → sj ≠ .str "error" →
        PassthroughAck.from_payload pl = .error .valueError) := by
  constructor
  · intro pl dvc cv rs hid hst hcv hrs
    have hne := strOk_ok_ne _ _ hid
    simp [PassthroughAck.from_payload, hid, hst, hcv, hrs,
      PassthroughAck.init, hne, Except.bind, bind]
  · intro pl dvc cv sj hid hcv hst h1 h2 h3
    match sj with
    | .str s =>
      have hs1 : s ≠ "ok" := fun hh => h1 (by rw [hh])
      have hs2 : s ≠ "denied" := fun hh => h2 (by rw [hh])
      have hs3 : s ≠ "error" := fun hh => h3 (by rw [hh])
      simp [PassthroughAck.from_payload, hid, hst, hcv, hs1, hs2, hs3,
        Except.bind, bind]
    | .null | .bool _ | .num _ | .arr _ | .obj _ =>
      simp [PassthroughAck.from_payload, hid, hst, hcv, Except.bind, bind]

/-- Witness for C9 amended. -/
theorem ack_status_default_amended_witness :
    PassthroughAck.from_payload
        [("device_id", .str "d"), ("current_vm", .str "vm-a")] =
      .ok ⟨"d", some "vm-a", "ok"⟩ ∧
    PassthroughAck.from_payload
        [("device_id", .str "d"), ("status", .str "bogus")] =
      .error .valueError :=
  ⟨ack_status_default_amended.1
      [("device_id", .str "d"), ("current_vm", .str "vm-a")] "d" (some "vm-a")
      none rfl rfl rfl rfl,
   ack_status_default_amended.2
      [("device_id", .str "d"), ("status", .str "bogus")] "d" none
      (.str "bogus") rfl rfl rfl (by decide) (by decide) (by decide)⟩

end Ghaf
